import Mathlib

/-!
Byte-level model of `makeDebuggable.py`, a patcher for Android binary XML
(AXML) manifests that forces `android:debuggable="true"` on the
`<application>` element.

Modelling conventions.
A stream is a `List Nat` of bytes (every entry `< 256`; all concrete inputs
below satisfy this).  Python file objects are modelled by passing the whole
stream together with an absolute position; `f.read(n)` with a possibly
negative `n` is `readAmt` (Python reads to EOF on a negative size and
truncates at EOF otherwise), while `struct.unpack` reads are strict: they
fail (`none`) when not enough bytes remain, as `unpack` raises on a short
buffer.  A raised Python exception is modelled as `none`; functions of the
source that can return Python `None` *and* raise are modelled as
`Option (Option _)`, the outer layer being the exception.  Decoded strings
are modelled as their list of code units (bytes for UTF-8, 16-bit units for
UTF-16); the source only ever compares decoded strings against ASCII
literals, and such a comparison succeeds exactly when the code units are the
literal's ASCII codes.  The two unbounded loops of the source (the chunk
scanner, whose position does not advance when a chunk claims size 0, and
the chunk-emission loop of `patchManifest`, which can re-enter the same
index) take an explicit fuel argument; exhausted fuel is `none`.
-/

namespace MakeDebuggable

/-- Little-endian 16-bit encoding, the payload of `pack "<H"`. -/
def u16le (n : Nat) : List Nat := [n % 256, n / 256 % 256]

/-- Little-endian 32-bit encoding, the payload of `pack "<I"` / `pack "<L"`. -/
def u32le (n : Nat) : List Nat :=
  [n % 256, n / 256 % 256, n / 2 ^ 16 % 256, n / 2 ^ 24 % 256]

/-- Python `f.read(n)` at absolute position `pos`: a negative size reads to
EOF, otherwise at most the remaining bytes are returned. -/
def readAmt (s : List Nat) (pos : Nat) (n : Int) : List Nat :=
  if n < 0 then s.drop pos else (s.drop pos).take n.toNat

/-- Strict `unpack "<H"` at `pos`: fails when fewer than 2 bytes remain. -/
def readU16 (s : List Nat) (pos : Nat) : Option Nat := do
  let b0 ← s.get? pos
  let b1 ← s.get? (pos + 1)
  pure (b0 + 256 * b1)

/-- Strict `unpack "<I"` at `pos`: fails when fewer than 4 bytes remain. -/
def readU32 (s : List Nat) (pos : Nat) : Option Nat := do
  let b0 ← s.get? pos
  let b1 ← s.get? (pos + 1)
  let b2 ← s.get? (pos + 2)
  let b3 ← s.get? (pos + 3)
  pure (b0 + 256 * b1 + 2 ^ 16 * b2 + 2 ^ 24 * b3)

structure CommonHeader where
  type : Nat
  headerSize : Nat
  chunkSize : Nat
  deriving Repr, DecidableEq

/-- Source `readCommonHeader`: returns `None` (here `none`) when fewer than
8 bytes remain (the "Skipping last N bytes" case ends the chunk scan). -/
def readCommonHeader (s : List Nat) (pos : Nat) : Option CommonHeader :=
  if s.length - pos < 8 then none
  else do
    let t ← readU16 s pos
    let hs ← readU16 s (pos + 2)
    let cs ← readU32 s (pos + 4)
    pure ⟨t, hs, cs⟩

/-- Source `writeCommonHeader` via `pack "<HHI"`; `pack` raises when a value
is out of range for its format. -/
def writeCommonHeaderBytes (t hs cs : Nat) : Option (List Nat) :=
  if t < 2 ^ 16 ∧ hs < 2 ^ 16 ∧ cs < 2 ^ 32 then
    some (u16le t ++ u16le hs ++ u32le cs)
  else none

structure ChunkInfo where
  startOffset : Nat
  header : CommonHeader
  deriving Repr, DecidableEq

/-- Source `readChunks`: reads a common header, records the chunk, then
seeks `chunkSize - 8` from the position after the header, i.e. to
`startOffset + chunkSize` (Python seeks accept positions past EOF and the
net offset is never negative since `chunkSize ≥ 0`).  A chunk of size 0
makes the Python loop run forever; the fuel models that. -/
def readChunks (s : List Nat) : Nat → Nat → Option (List ChunkInfo)
  | 0, _ => none
  | fuel + 1, pos =>
    match readCommonHeader s pos with
    | none => some []
    | some h => do
      let rest ← readChunks s fuel (pos + h.chunkSize)
      pure (⟨pos, h⟩ :: rest)

/-- Loop body of `findStringpoolAndResmap`: one pass recording the indices
of the string-pool and resource-map chunks, raising on duplicates. -/
def findSpRm : List ChunkInfo → Nat → Option Nat → Option Nat →
    Option (Option Nat × Option Nat)
  | [], _, sp, rm => some (sp, rm)
  | c :: rest, i, sp, rm =>
    if c.header.type = 0x1 then
      match sp with
      | some _ => none
      | none => findSpRm rest (i + 1) (some i) rm
    else if c.header.type = 0x180 then
      match rm with
      | some _ => none
      | none => findSpRm rest (i + 1) sp (some i)
    else findSpRm rest (i + 1) sp rm

/-- Source `findStringpoolAndResmap`: raises when no string pool exists;
the resource map is optional (`-1` in the source, `none` here). -/
def findStringpoolAndResmap (chunks : List ChunkInfo) :
    Option (Nat × Option Nat) := do
  let (sp, rm) ← findSpRm chunks 0 none none
  match sp with
  | none => none
  | some spIdx => pure (spIdx, rm)

structure StrPoolInfo where
  chunk : ChunkInfo
  stringCount : Nat
  styleCount : Nat
  flags : Nat
  stringsStart : Nat
  stylesStart : Nat
  deriving Repr, DecidableEq

def StrPoolInfo.isUtf8 (p : StrPoolInfo) : Bool := p.flags.testBit 8

/-- Source `decodeStringPoolInfo`: five 32-bit reads after the 8-byte
common header. -/
def decodeStringPoolInfo (s : List Nat) (ci : ChunkInfo) :
    Option StrPoolInfo := do
  let o := ci.startOffset + 8
  let sc ← readU32 s o
  let stc ← readU32 s (o + 4)
  let fl ← readU32 s (o + 8)
  let ss ← readU32 s (o + 12)
  let sts ← readU32 s (o + 16)
  pure ⟨ci, sc, stc, fl, ss, sts⟩

/-- Source `decodeLength(fs, 1)`: two bytes are read strictly; when the
high bit of the first is clear the second is pushed back.  Combination is
`((length1 & ~0x80) << 8) | length2`, which on bytes equals the arithmetic
below.  The trailing assert is a fatal error when it fails. -/
def decodeLength8 (s : List Nat) (pos : Nat) : Option (Nat × Nat) := do
  let l1 ← s.get? pos
  let l2 ← s.get? (pos + 1)
  let r := if l1.testBit 7 then ((l1 - 0x80) * 256 + l2, 2) else (l1, 1)
  if r.1 ≤ 0x7FFF then pure r else none

/-- Source `decodeLength(fs, 2)`: same with 16-bit units and high bit
`0x8000`. -/
def decodeLength16 (s : List Nat) (pos : Nat) : Option (Nat × Nat) := do
  let l1 ← readU16 s pos
  let l2 ← readU16 s (pos + 2)
  let r :=
    if l1.testBit 15 then ((l1 - 0x8000) * 2 ^ 16 + l2, 4) else (l1, 2)
  if r.1 ≤ 0x7FFFFFFF then pure r else none

/-- Source `decode8`: a UTF-16 length, then a byte length, then the bytes,
then a NUL byte.  Python's `f.read(strBytes)` may return fewer bytes at
EOF; the NUL check then happens right at EOF and fails, which the
`min` below reproduces. -/
def decode8 (s : List Nat) (pos : Nat) : Option (List Nat × Nat) := do
  let r1 ← decodeLength8 s pos
  let r2 ← decodeLength8 s (pos + r1.2)
  let strBytes := r2.1
  let dataPos := pos + r1.2 + r2.2
  let str := (s.drop dataPos).take strBytes
  let nul ← s.get? (dataPos + min strBytes (s.length - dataPos))
  if nul = 0 then pure (str, r1.2 + r2.2 + strBytes + 1) else none

/-- Pair up bytes into little-endian 16-bit units; a trailing odd byte
becomes a replacement unit (never an ASCII code), matching the effect of
Python's lenient UTF-16 decode on the comparisons the source makes. -/
def units16 : List Nat → List Nat
  | [] => []
  | [_] => [0xFFFD]
  | b0 :: b1 :: rest => (b0 + 256 * b1) :: units16 rest

/-- Source `decode16`: one (possibly two-unit) length in UTF-16 units, then
`2 * len` bytes, then a 16-bit NUL. -/
def decode16 (s : List Nat) (pos : Nat) : Option (List Nat × Nat) := do
  let r1 ← decodeLength16 s pos
  let strBytes := r1.1 * 2
  let dataPos := pos + r1.2
  let str := units16 ((s.drop dataPos).take strBytes)
  let p2 := dataPos + min strBytes (s.length - dataPos)
  let n0 ← s.get? p2
  let n1 ← s.get? (p2 + 1)
  if n0 = 0 ∧ n1 = 0 then pure (str, r1.2 + strBytes + 2) else none

/-- ASCII code units of `"debuggable"`. -/
def debuggableCodes : List Nat := [100, 101, 98, 117, 103, 103, 97, 98, 108, 101]

/-- ASCII code units of `"application"`. -/
def applicationCodes : List Nat :=
  "application".data.map Char.toNat

/-- ASCII code units of the Android namespace URI. -/
def androidNsCodes : List Nat :=
  "http://schemas.android.com/apk/res/android".data.map Char.toNat

/-- Source `readString`: returns Python `None` (`some none`) when the index
has bit 31 set or is out of range, decodes otherwise; a decoding exception
is the outer `none`. -/
def readStringE (s : List Nat) (p : StrPoolInfo) (idx : Nat) :
    Option (Option (List Nat)) :=
  if idx.testBit 31 ∨ p.stringCount ≤ idx then some none
  else
    match readU32 s (p.chunk.startOffset + p.chunk.header.headerSize + idx * 4) with
    | none => none
    | some off =>
      match (if p.isUtf8 then decode8 s (p.chunk.startOffset + p.stringsStart + off)
             else decode16 s (p.chunk.startOffset + p.stringsStart + off)) with
      | none => none
      | some r => some (some r.1)

/-- Loop of `findApplication` over the chunk list, tracking the index of a
previously found application element; duplicates raise. -/
def findApplicationAux (s : List Nat) (pool : StrPoolInfo) :
    List ChunkInfo → Nat → Option Nat → Option (Option Nat)
  | [], _, acc => some acc
  | c :: rest, i, acc =>
    if c.header.type = 0x0102 then
      match readU32 s (c.startOffset + c.header.headerSize + 4) with
      | none => none
      | some nameId =>
        match readStringE s pool nameId with
        | none => none
        | some nm =>
          if nm = some applicationCodes then
            match acc with
            | some _ => none
            | none => findApplicationAux s pool rest (i + 1) (some i)
          else findApplicationAux s pool rest (i + 1) acc
    else findApplicationAux s pool rest (i + 1) acc

/-- Source `findApplication`: raises when no (or more than one) application
element exists. -/
def findApplication (s : List Nat) (chunks : List ChunkInfo)
    (pool : StrPoolInfo) : Option Nat :=
  (findApplicationAux s pool chunks 0 none).bind id

structure Attr where
  startOffset : Nat
  nsId : Nat
  nameId : Nat
  rawVal : Nat
  size : Nat
  dataType : Nat
  data : Nat
  deriving Repr, DecidableEq

/-- One 20-byte attribute record, `unpack "<IIIHBBI"`; strict. -/
def readAttrRecord (s : List Nat) (pos : Nat) : Option Attr := do
  let ns ← readU32 s pos
  let name ← readU32 s (pos + 4)
  let raw ← readU32 s (pos + 8)
  let sz ← readU16 s (pos + 12)
  let _res0 ← s.get? (pos + 14)
  let dt ← s.get? (pos + 15)
  let d ← readU32 s (pos + 16)
  pure ⟨pos, ns, name, raw, sz, dt, d⟩

/-- Attribute-reading loop of `decodeAttributes`. -/
def readAttrsLoop (s : List Nat) : Nat → Nat → Option (List Attr)
  | _, 0 => some []
  | pos, n + 1 => do
    let a ← readAttrRecord s pos
    let rest ← readAttrsLoop s (pos + 20) n
    pure (a :: rest)

/-- Source `decodeAttributes`: six 16-bit fields at data start + 8, a fatal
check that `attributeSize = 20`, then the records. -/
def decodeAttributes (s : List Nat) (ci : ChunkInfo) : Option (List Attr) := do
  let ds := ci.startOffset + ci.header.headerSize
  let attrStart ← readU16 s (ds + 8)
  let attrSize ← readU16 s (ds + 10)
  let attrCount ← readU16 s (ds + 12)
  let _idIdx ← readU16 s (ds + 14)
  let _clsIdx ← readU16 s (ds + 16)
  let _styIdx ← readU16 s (ds + 18)
  if attrSize ≠ 20 then none
  else readAttrsLoop s (ds + attrStart) attrCount

structure ResmapInfo where
  chunk : Option ChunkInfo
  len : Int
  deriving Repr, DecidableEq

/-- Source `calculateResMapLength`: Python floor division of a possibly
negative difference, hence `Int`. -/
def calculateResMapLength (ci : ChunkInfo) : Int :=
  Int.fdiv ((ci.header.chunkSize : Int) - (ci.header.headerSize : Int)) 4

/-- Source `readResId`: Python `None` (`some none`) when the index is not
below the map length; otherwise a strict 32-bit read (whose failure is an
exception, outer `none`).  A missing map has length 0, so the lookup is
always `None` then. -/
def readResIdE (s : List Nat) (rm : ResmapInfo) (idx : Nat) :
    Option (Option Nat) :=
  if rm.len ≤ (idx : Int) then some none
  else
    match rm.chunk with
    | none => none
    | some ci =>
      match readU32 s (ci.startOffset + ci.header.headerSize + idx * 4) with
      | none => none
      | some r => some (some r)

/-- Loop of `findDebuggableAttribute`: the first attribute whose name string
is `"debuggable"` and whose name index maps to `0x0101000F` wins; both a
string-decode error and a truncated resource map raise. -/
def findDebuggableAttributeAux (s : List Nat) (pool : StrPoolInfo)
    (rm : ResmapInfo) : List Attr → Nat → Option (Option Nat)
  | [], _ => some none
  | a :: rest, i =>
    match readStringE s pool a.nameId with
    | none => none
    | some nm =>
      match readResIdE s rm a.nameId with
      | none => none
      | some resId =>
        if nm = some debuggableCodes ∧ resId = some 0x0101000F then
          some (some i)
        else findDebuggableAttributeAux s pool rm rest (i + 1)

/-- Source `DEBUGGABLE_STRING_DATA_UTF8`: note the single length byte. -/
def DEBUGGABLE_STRING_DATA_UTF8 : List Nat :=
  [10, 100, 101, 98, 117, 103, 103, 97, 98, 108, 101, 0]

/-- Source `DEBUGGABLE_STRING_DATA_UTF16`. -/
def DEBUGGABLE_STRING_DATA_UTF16 : List Nat :=
  [10, 0, 100, 0, 101, 0, 98, 0, 117, 0, 103, 0, 103, 0, 97, 0, 98, 0,
   108, 0, 101, 0, 0, 0]

/-- Source `patchStringRef`: read one string reference, shift it by one when
it is not `0xFFFFFFFF` and not below the insertion index, emit it.  Result
is the emitted bytes and the input position after the read. -/
def patchStringRef (s : List Nat) (pos : Nat) (cmp : Int) :
    Option (List Nat × Nat) := do
  let n ← readU32 s pos
  let n2 := if n ≠ 0xFFFFFFFF ∧ cmp ≤ (n : Int) then n + 1 else n
  if n2 < 2 ^ 32 then pure (u32le n2, pos + 4) else none

/-- Source `patchNode`: copy the line number (leniently, like `f.read`),
then shift the comment reference. -/
def patchNode (s : List Nat) (pos : Nat) (cmp : Int) :
    Option (List Nat × Nat) := do
  let b := readAmt s pos 4
  let r ← patchStringRef s (pos + b.length) cmp
  pure (b ++ r.1, r.2)

/-- Source `patchCDataExt`: shift `data`, copy 8 bytes of typed data. -/
def patchCDataExt (s : List Nat) (pos : Nat) (cmp : Int) :
    Option (List Nat × Nat) := do
  let r ← patchStringRef s pos cmp
  let b := readAmt s r.2 8
  pure (r.1 ++ b, r.2 + b.length)

/-- Source `patchNamespaceExt`: shift `prefix` and `uri`. -/
def patchNamespaceExt (s : List Nat) (pos : Nat) (cmp : Int) :
    Option (List Nat × Nat) := do
  let r1 ← patchStringRef s pos cmp
  let r2 ← patchStringRef s r1.2 cmp
  pure (r1.1 ++ r2.1, r2.2)

/-- Source `patchEndElementExt`: shift `ns` and `name`. -/
def patchEndElementExt (s : List Nat) (pos : Nat) (cmp : Int) :
    Option (List Nat × Nat) := do
  let r1 ← patchStringRef s pos cmp
  let r2 ← patchStringRef s r1.2 cmp
  pure (r1.1 ++ r2.1, r2.2)

/-- Source `patchAttribute`: shift `ns`, `name`, `rawValue`, copy the
`size`/`res0`/`dataType` header, then shift `data` when it is a string
reference (`dataType = 3`) and copy it otherwise. -/
def patchAttribute (s : List Nat) (pos : Nat) (cmp : Int) :
    Option (List Nat × Nat) := do
  let a ← patchStringRef s pos cmp
  let b ← patchStringRef s a.2 cmp
  let c ← patchStringRef s b.2 cmp
  let sz ← readU16 s c.2
  let r0 ← s.get? (c.2 + 2)
  let ty ← s.get? (c.2 + 3)
  let hdr := u16le sz ++ [r0, ty]
  if ty = 3 then do
    let d ← patchStringRef s (c.2 + 4) cmp
    pure (a.1 ++ b.1 ++ c.1 ++ hdr ++ d.1, d.2)
  else
    let d := readAmt s (c.2 + 4) 4
    pure (a.1 ++ b.1 ++ c.1 ++ hdr ++ d, c.2 + 4 + d.length)

/-- Attribute loop shared by `patchAttrExt`. -/
def patchAttrsLoop (s : List Nat) (cmp : Int) : Nat → Nat →
    Option (List Nat × Nat)
  | pos, 0 => some ([], pos)
  | pos, n + 1 => do
    let a ← patchAttribute s pos cmp
    let r ← patchAttrsLoop s cmp a.2 n
    pure (a.1 ++ r.1, r.2)

/-- Source `patchAttrExt` (start elements other than the application):
shift `ns`/`name`, copy the attribute block header, any padding, the
attributes, and any trailing bytes up to the chunk end. -/
def patchAttrExt (s : List Nat) (pos : Nat) (ci : ChunkInfo) (cmp : Int) :
    Option (List Nat × Nat) := do
  let endPos := ci.startOffset + ci.header.chunkSize
  let a ← patchStringRef s pos cmp
  let b ← patchStringRef s a.2 cmp
  let attrStart ← readU16 s b.2
  let attrSize ← readU16 s (b.2 + 2)
  let cnt ← readU16 s (b.2 + 4)
  let hdr := u16le attrStart ++ u16le attrSize ++ u16le cnt
  let rest6 := readAmt s (b.2 + 6) 6
  let p3 := b.2 + 6 + rest6.length
  let pad := readAmt s p3
    ((ci.startOffset + ci.header.headerSize + attrStart : Int) - (p3 : Int))
  let p4 := p3 + pad.length
  let r ← patchAttrsLoop s cmp p4 cnt
  let tail := readAmt s r.2 ((endPos : Int) - (r.2 : Int))
  pure (a.1 ++ b.1 ++ hdr ++ rest6 ++ pad ++ r.1 ++ tail, r.2 + tail.length)

/-- Source `patchChunk`: copy the 8-byte common header verbatim, then
dispatch on the chunk type; XML node chunks get their node header and
type-specific references shifted, everything else is copied. -/
def patchChunk (s : List Nat) (ci : ChunkInfo) (cmp : Int) :
    Option (List Nat) := do
  let pos := ci.startOffset
  let hdr := readAmt s pos 8
  let p0 := pos + hdr.length
  let t := ci.header.type
  if 0x100 ≤ t ∧ t ≤ 0x17F then do
    let node ← patchNode s p0 cmp
    if t = 0x100 ∨ t = 0x101 then do
      let e ← patchNamespaceExt s node.2 cmp
      pure (hdr ++ node.1 ++ e.1)
    else if t = 0x102 then do
      let e ← patchAttrExt s node.2 ci cmp
      pure (hdr ++ node.1 ++ e.1)
    else if t = 0x103 then do
      let e ← patchEndElementExt s node.2 cmp
      pure (hdr ++ node.1 ++ e.1)
    else if t = 0x104 then do
      let e ← patchCDataExt s node.2 cmp
      pure (hdr ++ node.1 ++ e.1)
    else
      pure (hdr ++ node.1 ++ readAmt s node.2
        ((ci.header.chunkSize : Int) - (ci.header.headerSize : Int)))
  else
    pure (hdr ++ readAmt s p0 ((ci.header.chunkSize : Int) - 8))

/-- String-offset rewriting loop of `patchStringPool` (offsets after the
insertion point are shifted by the encoded length of the new string);
`pack "<I"` raises on overflow. -/
def poolOffsetsLoop (s : List Nat) (strLen : Nat) : Nat → Nat →
    Option (List Nat × Nat)
  | pos, 0 => some ([], pos)
  | pos, n + 1 => do
    let v ← readU32 s pos
    if v + strLen < 2 ^ 32 then do
      let r ← poolOffsetsLoop s strLen (pos + 4) n
      pure (u32le (v + strLen) ++ r.1, r.2)
    else none

/-- Source `patchStringPool`.  The insertion index is the resource-map
length, an `Int` in the source (Python floor division).  When styles are
present the rewrite reaches source line 180, `unpack(readInt(f, 3))`:
`unpack` receives the tuple returned by `readInt` as its only argument and
raises `TypeError` before the first style record is written, so that branch
is a failure. -/
def patchStringPool (s : List Nat) (p : StrPoolInfo) (insertionIdx : Int) :
    Option (List Nat) := do
  let so := p.chunk.startOffset
  let strLen : Nat := if p.isUtf8 then 12 else 24
  let newStrCount := p.stringCount + 1
  let newStringsStart := p.stringsStart + 4
  let newStylesStart := if 0 < p.styleCount then p.stylesStart + 4 + strLen else 0
  let newChunkSize := p.chunk.header.chunkSize + strLen + 4
  let hdr ← writeCommonHeaderBytes p.chunk.header.type p.chunk.header.headerSize
    newChunkSize
  if 2 ^ 32 ≤ newStrCount ∨ 2 ^ 32 ≤ p.styleCount ∨ 2 ^ 32 ≤ p.flags ∨
      2 ^ 32 ≤ newStringsStart ∨ 2 ^ 32 ≤ newStylesStart then none else do
  let hdr2 := u32le newStrCount ++ u32le p.styleCount ++ u32le p.flags ++
    u32le newStringsStart ++ u32le newStylesStart
  let tpos := so + p.chunk.header.headerSize
  let tbl := readAmt s tpos (4 * insertionIdx)
  let p1 := tpos + tbl.length
  let x ← readU32 s p1
  if 2 ^ 32 ≤ x + strLen then none else do
  let r ← poolOffsetsLoop s strLen (p1 + 4)
    (((p.stringCount : Int) - (insertionIdx + 1)).toNat)
  if r.2 ≠ so + p.chunk.header.headerSize + 4 * p.stringCount then none else do
  let styleTbl := readAmt s r.2 (4 * (p.styleCount : Int))
  let p3 := r.2 + styleTbl.length
  let padding := readAmt s p3 ((so + p.stringsStart : Int) - (p3 : Int))
  let p4 := p3 + padding.length
  let blob1 := readAmt s p4 (x : Int)
  let p5 := p4 + blob1.length
  let newStr := if p.isUtf8 then DEBUGGABLE_STRING_DATA_UTF8
    else DEBUGGABLE_STRING_DATA_UTF16
  if 0 < p.styleCount then none
  else do
    let tail := readAmt s p5 ((so + p.chunk.header.chunkSize : Int) - (p5 : Int))
    pure (hdr ++ hdr2 ++ tbl ++ u32le x ++ u32le (x + strLen) ++ r.1 ++
      styleTbl ++ padding ++ blob1 ++ newStr ++ tail)

/-- Source `patchResmap`: rewrite the header with `chunkSize + 4`, copy the
body, append the debuggable resource id. -/
def patchResmap (s : List Nat) (rm : ResmapInfo) : Option (List Nat) := do
  match rm.chunk with
  | none => none
  | some ci => do
    let hdr ← writeCommonHeaderBytes ci.header.type ci.header.headerSize
      (ci.header.chunkSize + 4)
    let body := readAmt s (ci.startOffset + 8) ((ci.header.chunkSize : Int) - 8)
    pure (hdr ++ body ++ u32le 0x0101000F)

/-- Source `injectResmap`: a fresh 12-byte resource-map chunk. -/
def injectResmapBytes : List Nat :=
  u16le 0x180 ++ u16le 8 ++ u32le 12 ++ u32le 0x0101000F

/-- The new attribute record, `pack "<5L"` of
`(androidNsId, debuggableStringId, 0xFFFFFFFF, 0x12000008, 0xFFFFFFFF)`;
`pack` raises when the string id is out of `L` range (it is the resource-map
length, an `Int`). -/
def newDebuggableAttr (nsId : Nat) (d : Int) : Option (List Nat) :=
  if 0 ≤ d ∧ d < 2 ^ 32 ∧ nsId < 2 ^ 32 then
    some (u32le nsId ++ u32le d.toNat ++ u32le 0xFFFFFFFF ++
      u32le 0x12000008 ++ u32le 0xFFFFFFFF)
  else none

/-- Loop of `patchApplicationAttributes`.  For each existing attribute the
source evaluates `readResId(fIn, resmapInfo, name) > DEBUGGABLE_RES_ID`:
when `readResId` returns Python `None` (no resource-map entry) that
comparison raises `TypeError` in Python 3, modelled by the `some none`
branch failing.  Result: emitted bytes, whether the new record has been
inserted, and the input position. -/
def patchAppAttrsLoop (s : List Nat) (rm : ResmapInfo) (cmp : Int)
    (nsId : Nat) (d : Int) : Nat → Bool → Nat →
    Option (List Nat × Bool × Nat)
  | pos, inserted, 0 => some ([], inserted, pos)
  | pos, inserted, n + 1 => do
    let name ← readU32 s (pos + 4)
    match readResIdE s rm name with
    | none => none
    | some none => none
    | some (some resId) =>
      let ins := 0x0101000F < resId ∧ inserted = false
      if ins then do
        let nb ← newDebuggableAttr nsId d
        let a ← patchAttribute s pos cmp
        let r ← patchAppAttrsLoop s rm cmp nsId d a.2 true n
        pure (nb ++ a.1 ++ r.1, r.2)
      else do
        let a ← patchAttribute s pos cmp
        let r ← patchAppAttrsLoop s rm cmp nsId d a.2 inserted n
        pure (a.1 ++ r.1, r.2)

/-- Source `patchApplicationAttributes`: when the loop never found an
attribute with a larger resource id, the new record goes last. -/
def patchApplicationAttributes (s : List Nat) (pos : Nat) (attrCount : Nat)
    (rm : ResmapInfo) (d : Int) (nsId : Nat) :
    Option (List Nat × Nat) := do
  let r ← patchAppAttrsLoop s rm d nsId d pos false attrCount
  if r.2.1 then pure (r.1, r.2.2)
  else do
    let nb ← newDebuggableAttr nsId d
    pure (r.1 ++ nb, r.2.2)

/-- Source `patchApplicationElement`: new common header with
`chunkSize + 20`, node header and `ns`/`name` shifted, attribute count
incremented (`pack "<HHH"` raises on overflow), then the attribute rewrite
and any trailing bytes. -/
def patchApplicationElement (s : List Nat) (ci : ChunkInfo) (nsId : Nat)
    (d : Int) (rm : ResmapInfo) : Option (List Nat) := do
  let so := ci.startOffset
  let hs := ci.header.headerSize
  let hdr ← writeCommonHeaderBytes ci.header.type hs (ci.header.chunkSize + 20)
  let node ← patchNode s (so + 8) d
  let nsB ← patchStringRef s node.2 d
  let nameB ← patchStringRef s nsB.2 d
  let attrStart ← readU16 s nameB.2
  let attrSize ← readU16 s (nameB.2 + 2)
  let cnt ← readU16 s (nameB.2 + 4)
  if 2 ^ 16 ≤ cnt + 1 then none else do
  let hdr2 := u16le attrStart ++ u16le attrSize ++ u16le (cnt + 1)
  let rest6 := readAmt s (nameB.2 + 6) 6
  let p4 := nameB.2 + 6 + rest6.length
  let pad := readAmt s p4 ((so + hs + attrStart : Int) - (p4 : Int))
  let p5 := p4 + pad.length
  let r ← patchApplicationAttributes s p5 cnt rm d nsId
  let tail := readAmt s r.2 ((so + ci.header.chunkSize : Int) - (r.2 : Int))
  pure (hdr ++ node.1 ++ nsB.1 ++ nameB.1 ++ hdr2 ++ rest6 ++ pad ++ r.1 ++ tail)

/-- Loop of `findAndroidNsIdx` over all string indices; exhaustion raises
("No android ns found"). -/
def findAndroidNsIdxAux (s : List Nat) (p : StrPoolInfo) : Nat → Nat →
    Option Nat
  | _, 0 => none
  | i, n + 1 =>
    match readStringE s p i with
    | none => none
    | some nm =>
      if nm = some androidNsCodes then some i
      else findAndroidNsIdxAux s p (i + 1) n

/-- Source `findAndroidNsIdx`. -/
def findAndroidNsIdx (s : List Nat) (p : StrPoolInfo) : Option Nat :=
  findAndroidNsIdxAux s p 0 p.stringCount

/-- Chunk-emission loop of `patchManifest` (source lines 511-526).  The
index `i` is decremented and then incremented in the resource-map injection
branch, so it does not advance there; nothing records that the injection
already happened, which is why the branch can re-enter.  Fuel exhaustion
(`none`) models the resulting non-termination. -/
def chunkLoop (s : List Nat) (chunks : List ChunkInfo) (spIdx : Nat)
    (rmIdx : Option Nat) (appIdx : Nat) (pool : StrPoolInfo)
    (rm : ResmapInfo) (nsId : Nat) (d : Int) : Nat → Nat →
    Option (List Nat)
  | 0, _ => none
  | fuel + 1, i =>
    if i < chunks.length then
      if i = spIdx + 1 ∧ rmIdx = none then do
        let rest ← chunkLoop s chunks spIdx rmIdx appIdx pool rm nsId d fuel i
        pure (injectResmapBytes ++ rest)
      else if i = spIdx then do
        let b ← patchStringPool s pool d
        let rest ← chunkLoop s chunks spIdx rmIdx appIdx pool rm nsId d fuel (i + 1)
        pure (b ++ rest)
      else if rmIdx = some i then do
        let b ← patchResmap s rm
        let rest ← chunkLoop s chunks spIdx rmIdx appIdx pool rm nsId d fuel (i + 1)
        pure (b ++ rest)
      else if i = appIdx then do
        match chunks.get? i with
        | none => none
        | some ci => do
          let b ← patchApplicationElement s ci nsId d rm
          let rest ← chunkLoop s chunks spIdx rmIdx appIdx pool rm nsId d fuel (i + 1)
          pure (b ++ rest)
      else do
        match chunks.get? i with
        | none => none
        | some ci => do
          let b ← patchChunk s ci d
          let rest ← chunkLoop s chunks spIdx rmIdx appIdx pool rm nsId d fuel (i + 1)
          pure (b ++ rest)
    else some []

/-- Everything `patchManifest` decodes before deciding between the fast and
the slow path. -/
structure ParseView where
  fh : CommonHeader
  chunks : List ChunkInfo
  spIdx : Nat
  rmIdx : Option Nat
  pool : StrPoolInfo
  rm : ResmapInfo
  appIdx : Nat
  attrs : List Attr
  deriving Repr, DecidableEq

/-- Parsing phase of `patchManifest` (source lines 463-484): file header
check, chunk scan, string pool, optional resource map, application element
and its attributes. -/
def parseManifest (fuel : Nat) (inp : List Nat) : Option ParseView := do
  let fh ← readCommonHeader inp 0
  if fh.headerSize ≠ 8 then none else do
  let chunks ← readChunks inp fuel 8
  let sprm ← findStringpoolAndResmap chunks
  let spChunk ← chunks.get? sprm.1
  let pool ← decodeStringPoolInfo inp spChunk
  let rm : ResmapInfo ←
    match sprm.2 with
    | none => pure ⟨none, 0⟩
    | some ri => do
      let ci ← chunks.get? ri
      pure ⟨some ci, calculateResMapLength ci⟩
  let appIdx ← findApplication inp chunks pool
  let appChunk ← chunks.get? appIdx
  let attrs ← decodeAttributes inp appChunk
  pure ⟨fh, chunks, sprm.1, sprm.2, pool, rm, appIdx, attrs⟩

/-- Slow path of `patchManifest` (source lines 495-526): size increment,
new file header, android namespace lookup, insertion index, chunk loop. -/
def slowPath (fuel : Nat) (inp : List Nat) (pv : ParseView) :
    Option (List Nat) := do
  let strLen : Nat := if pv.pool.isUtf8 then 12 else 24
  let inc := strLen + 4 + 4 + (if pv.rmIdx = none then 8 else 0) + 20
  let hdr ← writeCommonHeaderBytes pv.fh.type pv.fh.headerSize
    (pv.fh.chunkSize + inc)
  let nsId0 ← findAndroidNsIdx inp pv.pool
  let d : Int := pv.rm.len
  let nsId := if d ≤ (nsId0 : Int) then nsId0 + 1 else nsId0
  let body ← chunkLoop inp pv.chunks pv.spIdx pv.rmIdx pv.appIdx pv.pool
    pv.rm nsId d fuel 0
  pure (hdr ++ body)

/-- Source `patchManifest`: parse, look for an existing debuggable
attribute; found means the fast path (copy the input, overwrite the 4-byte
data word at the attribute's offset + 16), otherwise the slow path. -/
def patchManifest (fuel : Nat) (inp : List Nat) : Option (List Nat) := do
  let pv ← parseManifest fuel inp
  match findDebuggableAttributeAux inp pv.pool pv.rm pv.attrs 0 with
  | none => none
  | some (some k) => do
    let a ← pv.attrs.get? k
    let off := a.startOffset + 16
    pure (inp.take off ++ [0xFF, 0xFF, 0xFF, 0xFF] ++ inp.drop (off + 4))
  | some none => slowPath fuel inp pv

/-- Source `patchManifestByFilename`: the patch runs into an in-memory
buffer while only the input file is open; the output path is opened for
writing (created / truncated) only after `patchManifest` returned.  The
file system is a map from names to contents; the result pairs the outcome
with the file system after the call (unchanged whenever an exception
propagates). -/
def patchManifestByFilename (fuel : Nat) (fs : String → Option (List Nat))
    (fnIn fnOut : String) :
    Option (List Nat) × (String → Option (List Nat)) :=
  match fs fnIn with
  | none => (none, fs)
  | some inp =>
    match patchManifest fuel inp with
    | none => (none, fs)
    | some out => (some out, fun p => if p = fnOut then some out else fs p)

/-! Concrete manifests used as witnesses and counterexamples.  All pools
are UTF-8 (`flags = 0x100`), header size 28, strings start at 36. -/

/-- A UTF-8 string pool with `"debuggable"` (index 0, well-formed encoding
with both length bytes) and `"application"` (index 1); 63 bytes. -/
def mFastPool : List Nat :=
  u16le 1 ++ u16le 28 ++ u32le 63 ++
  u32le 2 ++ u32le 0 ++ u32le 256 ++ u32le 36 ++ u32le 0 ++
  u32le 0 ++ u32le 13 ++
  ([10, 10] ++ debuggableCodes ++ [0]) ++
  ([11, 11] ++ applicationCodes ++ [0])

/-- A resource map binding string 0 to the debuggable resource id. -/
def mFastResmap : List Nat :=
  u16le 0x180 ++ u16le 8 ++ u32le 12 ++ u32le 0x0101000F

/-- An application start element (declared chunk size `cs`) with one
attribute named by string 0, of the given `dataType` and `data` word. -/
def mFastApp (cs dt dataWord : Nat) : List Nat :=
  u16le 0x102 ++ u16le 16 ++ u32le cs ++
  u32le 1 ++ u32le 0xFFFFFFFF ++
  u32le 0xFFFFFFFF ++ u32le 1 ++
  u16le 20 ++ u16le 20 ++ u16le 1 ++ u16le 0 ++ u16le 0 ++ u16le 0 ++
  u32le 0xFFFFFFFF ++ u32le 0 ++ u32le 0xFFFFFFFF ++
  u16le 8 ++ [0, dt] ++ u32le dataWord

/-- Manifest whose application element already carries
`debuggable = 0xFFFFFFFF` with boolean type; 139 bytes. -/
def mFastFF : List Nat :=
  u16le 3 ++ u16le 8 ++ u32le 139 ++ mFastPool ++ mFastResmap ++
  mFastApp 56 0x12 0xFFFFFFFF

/-- Manifest whose existing debuggable attribute has `dataType = 0x10` and
`data = 0`. -/
def mFastD10 : List Nat :=
  u16le 3 ++ u16le 8 ++ u32le 139 ++ mFastPool ++ mFastResmap ++
  mFastApp 56 0x10 0

/-- Manifest like `mFastFF` but whose file header overstates the total
length (143 instead of 139). -/
def mFast9 : List Nat :=
  u16le 3 ++ u16le 8 ++ u32le 143 ++ mFastPool ++ mFastResmap ++
  mFastApp 56 0x12 0xFFFFFFFF

/-- Manifest like `mFastFF` but whose last chunk claims 60 bytes while only
56 are present: its declared extent runs 4 bytes past end-of-stream. -/
def mFast7 : List Nat :=
  u16le 3 ++ u16le 8 ++ u32le 139 ++ mFastPool ++ mFastResmap ++
  mFastApp 60 0x12 0xFFFFFFFF

/-- A UTF-8 string pool with `"application"` (index 0) and the Android
namespace URI (index 1); 95 bytes.  No `"debuggable"` entry. -/
def mSlowPool : List Nat :=
  u16le 1 ++ u16le 28 ++ u32le 95 ++
  u32le 2 ++ u32le 0 ++ u32le 256 ++ u32le 36 ++ u32le 0 ++
  u32le 0 ++ u32le 14 ++
  ([11, 11] ++ applicationCodes ++ [0]) ++
  ([42, 42] ++ androidNsCodes ++ [0])

/-- An application start element with zero attributes; 36 bytes. -/
def mSlowApp : List Nat :=
  u16le 0x102 ++ u16le 16 ++ u32le 36 ++
  u32le 1 ++ u32le 0xFFFFFFFF ++
  u32le 0xFFFFFFFF ++ u32le 0 ++
  u16le 20 ++ u16le 20 ++ u16le 0 ++ u16le 0 ++ u16le 0 ++ u16le 0

/-- An empty resource-map chunk (header only, zero entries). -/
def emptyResmap : List Nat := u16le 0x180 ++ u16le 8 ++ u32le 8

/-- Manifest with no resource-map chunk at all; the string pool is not the
last chunk.  139 bytes. -/
def mNoRm : List Nat :=
  u16le 3 ++ u16le 8 ++ u32le 139 ++ mSlowPool ++ mSlowApp

/-- UTF-8 manifest with an (empty) resource map and no debuggable
attribute: the slow path runs and succeeds.  147 bytes. -/
def mUtf8Slow : List Nat :=
  u16le 3 ++ u16le 8 ++ u32le 147 ++ mSlowPool ++ emptyResmap ++ mSlowApp

/-- Output of the first patcher run on `mUtf8Slow`. -/
def mUtf8Out : List Nat := (patchManifest 12 mUtf8Slow).getD []

/-- Manifest whose string pool holds `"debuggable"` (index 0),
`"application"` (index 1) and the Android namespace (index 2), whose
resource map is empty, and whose application element has one attribute
named by string 0: the attribute is named `"debuggable"` but its name index
has no resource-map entry.  184 bytes. -/
def mS5 : List Nat :=
  u16le 3 ++ u16le 8 ++ u32le 184 ++
  (u16le 1 ++ u16le 28 ++ u32le 112 ++
    u32le 3 ++ u32le 0 ++ u32le 256 ++ u32le 40 ++ u32le 0 ++
    u32le 0 ++ u32le 13 ++ u32le 27 ++
    ([10, 10] ++ debuggableCodes ++ [0]) ++
    ([11, 11] ++ applicationCodes ++ [0]) ++
    ([42, 42] ++ androidNsCodes ++ [0])) ++
  emptyResmap ++
  mFastApp 56 0x12 0

/-- Parse result of `mFastFF` (checked by evaluation in the witnesses). -/
def pvFastFF : ParseView := ⟨⟨3, 8, 139⟩,
  [⟨8, ⟨1, 28, 63⟩⟩, ⟨71, ⟨0x180, 8, 12⟩⟩, ⟨83, ⟨0x102, 16, 56⟩⟩],
  0, some 1,
  ⟨⟨8, ⟨1, 28, 63⟩⟩, 2, 0, 256, 36, 0⟩,
  ⟨some ⟨71, ⟨0x180, 8, 12⟩⟩, 1⟩,
  2, [⟨119, 0xFFFFFFFF, 0, 0xFFFFFFFF, 8, 0x12, 0xFFFFFFFF⟩]⟩

/-- Parse result of `mFastD10`: identical to `pvFastFF` except for the
attribute's `dataType` (0x10) and `data` (0). -/
def pvFastD10 : ParseView := ⟨⟨3, 8, 139⟩,
  [⟨8, ⟨1, 28, 63⟩⟩, ⟨71, ⟨0x180, 8, 12⟩⟩, ⟨83, ⟨0x102, 16, 56⟩⟩],
  0, some 1,
  ⟨⟨8, ⟨1, 28, 63⟩⟩, 2, 0, 256, 36, 0⟩,
  ⟨some ⟨71, ⟨0x180, 8, 12⟩⟩, 1⟩,
  2, [⟨119, 0xFFFFFFFF, 0, 0xFFFFFFFF, 8, 0x10, 0⟩]⟩

/-- Output of the patcher on `mFastD10`. -/
def mFastD10Out : List Nat := (patchManifest 12 mFastD10).getD []

/-- Chunk list of `mNoRm` as the scanner returns it. -/
def mNoRmChunks : List ChunkInfo :=
  [⟨8, ⟨1, 28, 95⟩⟩, ⟨103, ⟨0x102, 16, 36⟩⟩]

/-- String-pool record of `mNoRm`. -/
def mNoRmPoolInfo : StrPoolInfo := ⟨⟨8, ⟨1, 28, 95⟩⟩, 2, 0, 256, 36, 0⟩

/-! Helper lemmas. -/

/-- The `ParseView` produced by `parseManifest` on `mUtf8Slow`:
UTF-8 pool at 8 (95 bytes), resource map at 103 (8 bytes, empty),
application element at 111 (36 bytes, no attributes). -/
def pvUtf8Slow : ParseView := ⟨⟨3, 8, 147⟩,
  [⟨8, ⟨1, 28, 95⟩⟩, ⟨103, ⟨0x180, 8, 8⟩⟩, ⟨111, ⟨0x102, 16, 36⟩⟩],
  0, some 1,
  ⟨⟨8, ⟨1, 28, 95⟩⟩, 2, 0, 256, 36, 0⟩,
  ⟨some ⟨103, ⟨0x180, 8, 8⟩⟩, 0⟩,
  2, []⟩


/-- Size-consistency of one chunk for the generic rewriter: the declared
extent lies inside the stream and the chunk has the canonical layout of its
type (fixed sizes for namespace, end-element and CDATA chunks, header size
16 for the other XML chunks, a consistent attribute block for start
elements). -/
def chunkOk (s : List Nat) (ci : ChunkInfo) : Prop :=
  ci.startOffset + ci.header.chunkSize ≤ s.length ∧ 8 ≤ ci.header.chunkSize ∧
  ((ci.header.type < 0x100 ∨ 0x17F < ci.header.type) ∨
   ((ci.header.type = 0x100 ∨ ci.header.type = 0x101 ∨ ci.header.type = 0x103) ∧
     ci.header.chunkSize = 24) ∨
   (ci.header.type = 0x104 ∧ ci.header.chunkSize = 28) ∨
   (ci.header.type = 0x102 ∧ ∃ attrStart cnt,
     readU16 s (ci.startOffset + 16 + 4 + 4) = some attrStart ∧
     readU16 s (ci.startOffset + 16 + 4 + 4 + 4) = some cnt ∧
     36 ≤ ci.header.headerSize + attrStart ∧
     ci.header.headerSize + attrStart + 20 * cnt ≤ ci.header.chunkSize) ∨
   (0x105 ≤ ci.header.type ∧ ci.header.type ≤ 0x17F ∧
     ci.header.headerSize = 16 ∧ 16 ≤ ci.header.chunkSize))

section Lemmas

set_option maxRecDepth 100000

/-- Replacing a slice of a list by the bytes it already holds is the
identity. -/
theorem splice_eq (l c : List Nat) (off : Nat)
    (h : (l.drop off).take c.length = c) :
    l.take off ++ c ++ l.drop (off + c.length) = l := by
  conv_rhs => rw [← List.take_append_drop off l]
  rw [List.append_assoc]
  congr 1
  conv_rhs => rw [← List.take_append_drop c.length (l.drop off)]
  rw [h, List.drop_drop, Nat.add_comm]

/-- When the parse found a debuggable attribute, `patchManifest` copies the
input and overwrites the 4 data bytes at the attribute's offset + 16. -/
theorem fastPath_eq (fuel : Nat) (inp : List Nat) (pv : ParseView) (k : Nat)
    (a : Attr)
    (hpv : parseManifest fuel inp = some pv)
    (hfind : findDebuggableAttributeAux inp pv.pool pv.rm pv.attrs 0 = some (some k))
    (ha : pv.attrs.get? k = some a) :
    patchManifest fuel inp = some (inp.take (a.startOffset + 16) ++
      [0xFF, 0xFF, 0xFF, 0xFF] ++ inp.drop (a.startOffset + 16 + 4)) := by
  simp only [patchManifest, Option.bind_eq_bind, hpv, Option.some_bind, hfind, ha]
  rfl

/-- An index returned by the attribute search points at an attribute whose
name string is `"debuggable"` and whose name maps to the debuggable
resource id. -/
theorem findAux_sound (s : List Nat) (pool : StrPoolInfo) (rm : ResmapInfo) :
    ∀ (attrs : List Attr) (i k : Nat),
      findDebuggableAttributeAux s pool rm attrs i = some (some k) →
      ∃ a, attrs.get? (k - i) = some a ∧
        readStringE s pool a.nameId = some (some debuggableCodes) ∧
        readResIdE s rm a.nameId = some (some 0x0101000F) ∧ i ≤ k := by
  intro attrs
  induction attrs with
  | nil => intro i k h; simp [findDebuggableAttributeAux] at h
  | cons a rest ih =>
    intro i k h
    simp only [findDebuggableAttributeAux] at h
    split at h
    · simp at h
    · rename_i nm hs
      split at h
      · simp at h
      · rename_i resId hr
        split at h
        · rename_i hc
          have hik : i = k := Option.some.inj (Option.some.inj h)
          subst hik
          exact ⟨a, by simp, by rw [hs, hc.1], by rw [hr, hc.2], le_refl _⟩
        · rename_i hc
          obtain ⟨b, hb, hstr, hres, hik⟩ := ih (i + 1) k h
          refine ⟨b, ?_, hstr, hres, by omega⟩
          have hsub : k - i = (k - (i + 1)) + 1 := by omega
          rw [hsub]
          simpa using hb

/-- When every attribute fails the combined test (and none of the lookups
raises), the search reports not-found. -/
theorem findAux_not_found (s : List Nat) (pool : StrPoolInfo) (rm : ResmapInfo) :
    ∀ (attrs : List Attr),
      (∀ a ∈ attrs, readStringE s pool a.nameId ≠ none) →
      (∀ a ∈ attrs, readResIdE s rm a.nameId ≠ none) →
      (∀ a ∈ attrs, ¬(readStringE s pool a.nameId = some (some debuggableCodes) ∧
        readResIdE s rm a.nameId = some (some 0x0101000F))) →
      ∀ i, findDebuggableAttributeAux s pool rm attrs i = some none := by
  intro attrs
  induction attrs with
  | nil => intro _ _ _ i; rfl
  | cons a rest ih =>
    intro h1 h2 h3 i
    simp only [findDebuggableAttributeAux]
    obtain ⟨nm, hs⟩ := Option.ne_none_iff_exists'.1 (h1 a (by simp))
    obtain ⟨resId, hr⟩ := Option.ne_none_iff_exists'.1 (h2 a (by simp))
    simp only [hs, hr]
    rw [if_neg]
    · exact ih (fun b hb => h1 b (by simp [hb])) (fun b hb => h2 b (by simp [hb]))
        (fun b hb => h3 b (by simp [hb])) (i + 1)
    · intro hc
      exact h3 a (by simp) ⟨by rw [hs, hc.1], by rw [hr, hc.2]⟩

/-- The inserted flag of the application-attribute loop never resets. -/
theorem loop_mono (s : List Nat) (rm : ResmapInfo) (cmp : Int) (nsId : Nat)
    (d : Int) :
    ∀ (n pos : Nat) (b : List Nat) (i2 : Bool) (p2 : Nat),
      patchAppAttrsLoop s rm cmp nsId d pos true n = some (b, i2, p2) →
      i2 = true := by
  intro n
  induction n with
  | zero =>
    intro pos b i2 p2 h
    simp only [patchAppAttrsLoop] at h
    have := Option.some.inj h
    simp only [Prod.ext_iff] at this
    exact this.2.1.symm
  | succ m ih =>
    intro pos b i2 p2 h
    simp only [patchAppAttrsLoop, Option.bind_eq_bind, Option.bind_eq_some] at h
    obtain ⟨name, _, h⟩ := h
    split at h
    · simp at h
    · simp at h
    · split at h
      · rename_i hc
        simp at hc
      · simp only [Option.bind_eq_some] at h
        obtain ⟨a, _, r, hrr, heq⟩ := h
        obtain ⟨rb, ri, rp⟩ := r
        have h2 := Option.some.inj heq
        simp only [Prod.ext_iff] at h2
        exact h2.2.1 ▸ ih a.2 rb ri rp hrr

/-- When the loop, started with the flag down, ends with the flag up, the
emitted bytes contain the new attribute record. -/
theorem loop_contains (s : List Nat) (rm : ResmapInfo) (cmp : Int) (nsId : Nat)
    (d : Int) :
    ∀ (n pos : Nat) (b : List Nat) (p2 : Nat),
      patchAppAttrsLoop s rm cmp nsId d pos false n = some (b, true, p2) →
      ∃ nb pre post, newDebuggableAttr nsId d = some nb ∧ b = pre ++ nb ++ post := by
  intro n
  induction n with
  | zero =>
    intro pos b p2 h
    simp only [patchAppAttrsLoop] at h
    have := Option.some.inj h
    simp only [Prod.ext_iff] at this
    exact absurd this.2.1 (by simp)
  | succ m ih =>
    intro pos b p2 h
    simp only [patchAppAttrsLoop, Option.bind_eq_bind, Option.bind_eq_some] at h
    obtain ⟨name, _, h⟩ := h
    split at h
    · simp at h
    · simp at h
    · split at h
      · simp only [Option.bind_eq_some] at h
        obtain ⟨nb, hnb, a, _, r, _, heq⟩ := h
        have := Option.some.inj heq
        simp only [Prod.ext_iff] at this
        exact ⟨nb, [], a.1 ++ r.1, hnb, by rw [← this.1]; simp⟩
      · simp only [Option.bind_eq_some] at h
        obtain ⟨a, _, r, hrr, heq⟩ := h
        obtain ⟨rb, ri, rp⟩ := r
        have heq2 := Option.some.inj heq
        simp only [Prod.ext_iff] at heq2
        obtain ⟨hb, hri, hrp⟩ := heq2
        obtain ⟨nb, pre, post, hnb, hbb⟩ := ih a.2 rb rp (hri.symm ▸ hrr)
        exact ⟨nb, a.1 ++ pre, post, hnb, by rw [← hb, hbb]; simp⟩

/-- Every successful application-attribute rewrite emits the new attribute
record somewhere. -/
theorem appAttrs_contains (s : List Nat) (rm : ResmapInfo) (d : Int) (nsId : Nat) :
    ∀ (cnt pos : Nat) (b : List Nat) (p2 : Nat),
      patchApplicationAttributes s pos cnt rm d nsId = some (b, p2) →
      ∃ nb pre post, newDebuggableAttr nsId d = some nb ∧ b = pre ++ nb ++ post := by
  intro cnt pos b p2 h
  simp only [patchApplicationAttributes, Option.bind_eq_bind, Option.bind_eq_some] at h
  obtain ⟨r, hr, h⟩ := h
  obtain ⟨rb, ri, rp⟩ := r
  by_cases hi : ri = true
  · subst hi
    rw [if_pos rfl] at h
    have := Option.some.inj h
    simp only [Prod.ext_iff] at this
    obtain ⟨nb, pre, post, hnb, hb⟩ := loop_contains s rm d nsId d cnt pos rb rp hr
    exact ⟨nb, pre, post, hnb, by rw [← this.1, hb]⟩
  · rw [if_neg (by simpa using hi)] at h
    simp only [Option.bind_eq_some] at h
    obtain ⟨nb, hnb, heq⟩ := h
    have := Option.some.inj heq
    simp only [Prod.ext_iff] at this
    exact ⟨nb, rb, [], hnb, by rw [← this.1]; simp⟩

/-- The chunk-emission loop never terminates once it sits one past the
string pool with no resource map recorded: the injection branch fires, the
index does not advance, and nothing records the injection. -/
theorem chunkLoop_stuck (s : List Nat) (chunks : List ChunkInfo)
    (spIdx appIdx : Nat) (pool : StrPoolInfo) (rm : ResmapInfo) (nsId : Nat)
    (d : Int) (i : Nat) (h1 : i = spIdx + 1) (h2 : i < chunks.length) :
    ∀ fuel, chunkLoop s chunks spIdx none appIdx pool rm nsId d fuel i = none := by
  intro fuel
  induction fuel with
  | zero => rfl
  | succ m ih =>
    simp only [chunkLoop]
    rw [if_pos h2, if_pos ⟨h1, trivial⟩]
    simp [ih]

theorem readAmt_len (s : List Nat) (pos m : Nat) (hav : pos + m ≤ s.length) :
    (readAmt s pos (m : Int)).length = m := by
  unfold readAmt
  rw [if_neg (by omega)]
  simp only [Int.toNat_natCast, List.length_take, List.length_drop]
  omega

theorem readU32_of_get (s : List Nat) (pos b0 b1 b2 b3 : Nat)
    (h0 : s.get? pos = some b0) (h1 : s.get? (pos + 1) = some b1)
    (h2 : s.get? (pos + 2) = some b2) (h3 : s.get? (pos + 3) = some b3) :
    readU32 s pos = some (b0 + 256 * b1 + 2 ^ 16 * b2 + 2 ^ 24 * b3) := by
  simp only [readU32, Option.bind_eq_bind, h0, h1, h2, h3, Option.some_bind]
  rfl

theorem readU32_bound (s : List Nat) (pos v : Nat) (h : readU32 s pos = some v) :
    pos + 4 ≤ s.length := by
  simp only [readU32, Option.bind_eq_bind, Option.bind_eq_some] at h
  obtain ⟨b0, h0, b1, h1, b2, h2, b3, h3, _⟩ := h
  obtain ⟨hlt, _⟩ := List.get?_eq_some.1 h3
  omega

theorem readU16_bound (s : List Nat) (pos v : Nat) (h : readU16 s pos = some v) :
    pos + 2 ≤ s.length := by
  simp only [readU16, Option.bind_eq_bind, Option.bind_eq_some] at h
  obtain ⟨b0, h0, b1, h1, _⟩ := h
  obtain ⟨hlt, _⟩ := List.get?_eq_some.1 h1
  omega

theorem whb_parts (t hs cs : Nat) (out : List Nat)
    (h : writeCommonHeaderBytes t hs cs = some out) :
    out = u16le t ++ u16le hs ++ u32le cs ∧ cs < 2 ^ 32 ∧ out.length = 8 := by
  unfold writeCommonHeaderBytes at h
  split at h
  · rename_i hg
    refine ⟨(Option.some.inj h).symm, hg.2.2, ?_⟩
    rw [← Option.some.inj h]
    rfl
  · simp at h

theorem readU32_header (t hs cs : Nat) (out rest : List Nat)
    (h : writeCommonHeaderBytes t hs cs = some out) :
    readU32 (out ++ rest) 4 = some cs := by
  obtain ⟨ho, hcs, _⟩ := whb_parts t hs cs out h
  subst ho
  simp only [u16le, u32le, List.cons_append, List.nil_append, readU32, List.get?]
  simp only [Option.bind_eq_bind, Option.some_bind]
  congr 1
  omega

theorem patchStringRef_spec (s : List Nat) (pos : Nat) (cmp : Int)
    (r : List Nat × Nat) (h : patchStringRef s pos cmp = some r) :
    r.1.length = 4 ∧ r.2 = pos + 4 ∧ pos + 4 ≤ s.length := by
  simp only [patchStringRef, Option.pure_def, Option.bind_eq_bind, Option.bind_eq_some,
    Option.ite_none_right_eq_some] at h
  obtain ⟨n, hn, h⟩ := h
  have hb := readU32_bound s pos n hn
  obtain ⟨_, hr⟩ := h
  exact ⟨by rw [← Option.some.inj hr]; rfl, by rw [← Option.some.inj hr], hb⟩

theorem patchNode_spec (s : List Nat) (pos : Nat) (cmp : Int)
    (r : List Nat × Nat) (hav : pos + 4 ≤ s.length)
    (h : patchNode s pos cmp = some r) :
    r.1.length = 8 ∧ r.2 = pos + 8 := by
  simp only [patchNode, Option.pure_def, Option.bind_eq_bind, Option.bind_eq_some] at h
  obtain ⟨a, ha, hr⟩ := h
  have hlen : (readAmt s pos (4 : Int)).length = 4 := readAmt_len s pos 4 hav
  rw [hlen] at ha
  obtain ⟨h1, h2, _⟩ := patchStringRef_spec s (pos + 4) cmp a ha
  have := Option.some.inj hr
  constructor
  · rw [← this]
    simp [hlen, h1]
  · rw [← this]
    simpa using h2

theorem patchNamespaceExt_spec (s : List Nat) (pos : Nat) (cmp : Int)
    (r : List Nat × Nat) (h : patchNamespaceExt s pos cmp = some r) :
    r.1.length = 8 ∧ r.2 = pos + 8 := by
  simp only [patchNamespaceExt, Option.pure_def, Option.bind_eq_bind,
    Option.bind_eq_some] at h
  obtain ⟨a, ha, b, hb, hr⟩ := h
  obtain ⟨a1, a2, _⟩ := patchStringRef_spec s pos cmp a ha
  rw [a2] at hb
  obtain ⟨b1, b2, _⟩ := patchStringRef_spec s (pos + 4) cmp b hb
  have := Option.some.inj hr
  constructor
  · rw [← this]; simp [a1, b1]
  · rw [← this]; simpa using b2

theorem patchEndElementExt_spec (s : List Nat) (pos : Nat) (cmp : Int)
    (r : List Nat × Nat) (h : patchEndElementExt s pos cmp = some r) :
    r.1.length = 8 ∧ r.2 = pos + 8 := by
  simp only [patchEndElementExt, Option.pure_def, Option.bind_eq_bind,
    Option.bind_eq_some] at h
  obtain ⟨a, ha, b, hb, hr⟩ := h
  obtain ⟨a1, a2, _⟩ := patchStringRef_spec s pos cmp a ha
  rw [a2] at hb
  obtain ⟨b1, b2, _⟩ := patchStringRef_spec s (pos + 4) cmp b hb
  have := Option.some.inj hr
  constructor
  · rw [← this]; simp [a1, b1]
  · rw [← this]; simpa using b2

theorem patchCDataExt_spec (s : List Nat) (pos : Nat) (cmp : Int)
    (r : List Nat × Nat) (hav : pos + 12 ≤ s.length)
    (h : patchCDataExt s pos cmp = some r) :
    r.1.length = 12 ∧ r.2 = pos + 12 := by
  simp only [patchCDataExt, Option.pure_def, Option.bind_eq_bind,
    Option.bind_eq_some] at h
  obtain ⟨a, ha, hr⟩ := h
  obtain ⟨a1, a2, _⟩ := patchStringRef_spec s pos cmp a ha
  have hlen : (readAmt s a.2 (8 : Int)).length = 8 := by
    rw [a2]
    exact readAmt_len s (pos + 4) 8 (by omega)
  have := Option.some.inj hr
  constructor
  · rw [← this]; simp [a1, hlen]
  · rw [← this]
    dsimp only
    rw [hlen, a2]

theorem patchAttribute_spec (s : List Nat) (pos : Nat) (cmp : Int)
    (r : List Nat × Nat) (hav : pos + 20 ≤ s.length)
    (h : patchAttribute s pos cmp = some r) :
    r.1.length = 20 ∧ r.2 = pos + 20 := by
  simp only [patchAttribute, Option.pure_def, Option.bind_eq_bind,
    Option.bind_eq_some] at h
  obtain ⟨a, ha, b, hb, c, hc, sz, hsz, r0, hr0, ty, hty, h⟩ := h
  obtain ⟨a1, a2, _⟩ := patchStringRef_spec s pos cmp a ha
  rw [a2] at hb
  obtain ⟨b1, b2, _⟩ := patchStringRef_spec s (pos + 4) cmp b hb
  rw [b2] at hc
  obtain ⟨c1, c2, _⟩ := patchStringRef_spec s (pos + 8) cmp c hc
  rw [c2] at h
  by_cases h3 : ty = 3
  · rw [if_pos h3] at h
    simp only [Option.pure_def, Option.bind_eq_bind, Option.bind_eq_some] at h
    obtain ⟨d, hd, hr⟩ := h
    obtain ⟨d1, d2, _⟩ := patchStringRef_spec s (pos + 12 + 4) cmp d hd
    have := Option.some.inj hr
    constructor
    · rw [← this]; simp [a1, b1, c1, d1, u16le]
    · rw [← this]
      simpa using d2
  · rw [if_neg h3] at h
    have hlen : (readAmt s (pos + 12 + 4) (4 : Int)).length = 4 :=
      readAmt_len s (pos + 16) 4 (by omega)
    have := Option.some.inj h
    constructor
    · rw [← this]; simp [a1, b1, c1, hlen, u16le]
    · rw [← this]
      dsimp only
      rw [hlen]

theorem newDebuggableAttr_len (nsId : Nat) (d : Int) (nb : List Nat)
    (h : newDebuggableAttr nsId d = some nb) : nb.length = 20 := by
  unfold newDebuggableAttr at h
  split at h
  · rw [← Option.some.inj h]; rfl
  · simp at h

theorem patchAttrsLoop_spec (s : List Nat) (cmp : Int) :
    ∀ (n pos : Nat) (r : List Nat × Nat), pos + 20 * n ≤ s.length →
      patchAttrsLoop s cmp pos n = some r →
      r.1.length = 20 * n ∧ r.2 = pos + 20 * n := by
  intro n
  induction n with
  | zero =>
    intro pos r _ h
    have := Option.some.inj h
    exact ⟨by rw [← this]; simp, by rw [← this]; simp⟩
  | succ m ih =>
    intro pos r hav h
    simp only [patchAttrsLoop, Option.pure_def, Option.bind_eq_bind,
      Option.bind_eq_some] at h
    obtain ⟨a, ha, q, hq, hr⟩ := h
    obtain ⟨a1, a2⟩ := patchAttribute_spec s pos cmp a (by omega) ha
    rw [a2] at hq
    obtain ⟨q1, q2⟩ := ih (pos + 20) q (by omega) hq
    have := Option.some.inj hr
    constructor
    · rw [← this]
      simp only [List.length_append, a1, q1]
      ring
    · rw [← this]
      dsimp only
      rw [q2]
      ring

theorem patchAppAttrsLoop_spec (s : List Nat) (rm : ResmapInfo) (cmp : Int)
    (nsId : Nat) (d : Int) :
    ∀ (n pos : Nat) (ins : Bool) (b : List Nat) (i2 : Bool) (p2 : Nat),
      pos + 20 * n ≤ s.length →
      patchAppAttrsLoop s rm cmp nsId d pos ins n = some (b, i2, p2) →
      b.length = 20 * n + (if ins = false ∧ i2 = true then 20 else 0) ∧
      p2 = pos + 20 * n := by
  intro n
  induction n with
  | zero =>
    intro pos ins b i2 p2 _ h
    simp only [patchAppAttrsLoop] at h
    have := Option.some.inj h
    simp only [Prod.ext_iff] at this
    obtain ⟨h1, h2, h3⟩ := this
    constructor
    · rw [← h1, ← h2]
      simp
    · rw [← h3]
      simp
  | succ m ih =>
    intro pos ins b i2 p2 hav h
    simp only [patchAppAttrsLoop, Option.pure_def, Option.bind_eq_bind,
      Option.bind_eq_some] at h
    obtain ⟨name, _, h⟩ := h
    split at h
    · simp at h
    · simp at h
    · rename_i resId _
      by_cases hc : 0x0101000F < resId ∧ ins = false
      · rw [if_pos hc] at h
        simp only [Option.pure_def, Option.bind_eq_bind, Option.bind_eq_some] at h
        obtain ⟨nb, hnb, a, ha, q, hq, hr⟩ := h
        obtain ⟨qb, qi, qp⟩ := q
        obtain ⟨a1, a2⟩ := patchAttribute_spec s pos cmp a (by omega) ha
        rw [a2] at hq
        obtain ⟨q1, q2⟩ := ih (pos + 20) true qb qi qp (by omega) hq
        have heq := Option.some.inj hr
        simp only [Prod.ext_iff] at heq
        obtain ⟨h1, h2, h3⟩ := heq
        have hqi : qi = true := loop_mono s rm cmp nsId d m (pos + 20) qb qi qp hq
        have hi2 : i2 = true := h2 ▸ hqi
        simp only [Bool.true_eq_false, false_and, if_false, add_zero] at q1
        constructor
        · rw [← h1]
          simp only [List.length_append, newDebuggableAttr_len nsId d nb hnb, a1,
            q1, hc.2, hi2, and_self, if_true]
          omega
        · rw [← h3, q2]
          ring
      · rw [if_neg hc] at h
        simp only [Option.pure_def, Option.bind_eq_bind, Option.bind_eq_some] at h
        obtain ⟨a, ha, q, hq, hr⟩ := h
        obtain ⟨qb, qi, qp⟩ := q
        obtain ⟨a1, a2⟩ := patchAttribute_spec s pos cmp a (by omega) ha
        rw [a2] at hq
        obtain ⟨q1, q2⟩ := ih (pos + 20) ins qb qi qp (by omega) hq
        have heq := Option.some.inj hr
        simp only [Prod.ext_iff] at heq
        obtain ⟨h1, h2, h3⟩ := heq
        constructor
        · rw [← h1, ← h2]
          simp only [List.length_append, a1, q1]
          omega
        · rw [← h3, q2]
          ring

theorem patchApplicationAttributes_spec (s : List Nat) (rm : ResmapInfo)
    (d : Int) (nsId : Nat) (cnt pos : Nat) (b : List Nat) (p2 : Nat)
    (hav : pos + 20 * cnt ≤ s.length)
    (h : patchApplicationAttributes s pos cnt rm d nsId = some (b, p2)) :
    b.length = 20 * cnt + 20 ∧ p2 = pos + 20 * cnt := by
  simp only [patchApplicationAttributes, Option.pure_def, Option.bind_eq_bind,
    Option.bind_eq_some] at h
  obtain ⟨r, hr, h⟩ := h
  obtain ⟨rb, ri, rp⟩ := r
  obtain ⟨r1, r2⟩ := patchAppAttrsLoop_spec s rm d nsId d cnt pos false rb ri rp hav hr
  cases ri with
  | true =>
    rw [if_pos rfl] at h
    have := Option.some.inj h
    simp only [Prod.ext_iff] at this
    constructor
    · rw [← this.1]
      simpa using r1
    · rw [← this.2]
      exact r2
  | false =>
    rw [if_neg (by simp)] at h
    simp only [Option.bind_eq_some] at h
    obtain ⟨nb, hnb, hr2⟩ := h
    have := Option.some.inj hr2
    simp only [Prod.ext_iff] at this
    constructor
    · rw [← this.1]
      simp only [List.length_append, newDebuggableAttr_len nsId d nb hnb]
      simp at r1
      omega
    · rw [← this.2]
      exact r2

theorem patchApplicationElement_spec (s : List Nat) (ci : ChunkInfo) (nsId : Nat)
    (d : Int) (rm : ResmapInfo) (out : List Nat) (attrStart cnt : Nat)
    (hattr : readU16 s (ci.startOffset + 8 + 8 + 4 + 4) = some attrStart)
    (hcnt : readU16 s (ci.startOffset + 8 + 8 + 4 + 4 + 4) = some cnt)
    (hpad : 36 ≤ ci.header.headerSize + attrStart)
    (hfit : ci.header.headerSize + attrStart + 20 * cnt ≤ ci.header.chunkSize)
    (hlen : ci.startOffset + ci.header.chunkSize ≤ s.length)
    (h : patchApplicationElement s ci nsId d rm = some out) :
    out.length = ci.header.chunkSize + 20 ∧
    readU32 out 4 = some (ci.header.chunkSize + 20) := by
  have hcs36 : 36 ≤ ci.header.chunkSize := by omega
  simp only [patchApplicationElement, Option.pure_def, Option.bind_eq_bind,
    Option.bind_eq_some, Option.ite_none_left_eq_some] at h
  obtain ⟨hdr, hhdr, node, hnode, nsB, hns, nameB, hname, as2, has2, asz, hasz,
    cn, hcn, hguard, r, hr, hout⟩ := h
  obtain ⟨n1, n2⟩ := patchNode_spec s (ci.startOffset + 8) d node (by omega) hnode
  rw [n2] at hns
  obtain ⟨ns1, ns2, _⟩ := patchStringRef_spec s (ci.startOffset + 8 + 8) d nsB hns
  rw [ns2] at hname
  obtain ⟨nm1, nm2, _⟩ := patchStringRef_spec s (ci.startOffset + 8 + 8 + 4) d nameB hname
  rw [nm2] at has2 hcn hr hout
  have hasv : as2 = attrStart := Option.some.inj (has2.symm.trans hattr)
  have hcnv : cn = cnt := Option.some.inj (hcn.symm.trans hcnt)
  rw [hasv, hcnv] at hr hout
  have hr6 : (readAmt s (ci.startOffset + 8 + 8 + 4 + 4 + 6) (6 : Int)).length = 6 :=
    readAmt_len s _ 6 (by omega)
  rw [hr6] at hr hout
  have hpadamt : (ci.startOffset : Int) + (ci.header.headerSize : Int) +
      (attrStart : Int) - ((ci.startOffset + 8 + 8 + 4 + 4 + 6 + 6 : Nat) : Int) =
      ((ci.header.headerSize + attrStart - 36 : Nat) : Int) := by omega
  rw [hpadamt] at hr hout
  have hpadlen : (readAmt s (ci.startOffset + 8 + 8 + 4 + 4 + 6 + 6)
      ((ci.header.headerSize + attrStart - 36 : Nat) : Int)).length =
      ci.header.headerSize + attrStart - 36 :=
    readAmt_len s _ _ (by omega)
  rw [hpadlen] at hr
  have hp5 : ci.startOffset + 8 + 8 + 4 + 4 + 6 + 6 +
      (ci.header.headerSize + attrStart - 36) =
      ci.startOffset + ci.header.headerSize + attrStart := by omega
  rw [hp5] at hr
  obtain ⟨rr, rp⟩ := r
  obtain ⟨r1, r2⟩ := patchApplicationAttributes_spec s rm d nsId cnt
    (ci.startOffset + ci.header.headerSize + attrStart) rr rp (by omega) hr
  rw [r2] at hout
  have htailamt : (ci.startOffset : Int) + (ci.header.chunkSize : Int) -
      ((ci.startOffset + ci.header.headerSize + attrStart + 20 * cnt : Nat) : Int) =
      ((ci.header.chunkSize - ci.header.headerSize - attrStart - 20 * cnt : Nat) : Int) := by
    omega
  rw [htailamt] at hout
  have htaillen : (readAmt s (ci.startOffset + ci.header.headerSize + attrStart + 20 * cnt)
      ((ci.header.chunkSize - ci.header.headerSize - attrStart - 20 * cnt : Nat) : Int)).length =
      ci.header.chunkSize - ci.header.headerSize - attrStart - 20 * cnt :=
    readAmt_len s _ _ (by omega)
  obtain ⟨hdrparts, hdrcs, hdrlen⟩ := whb_parts _ _ _ hdr hhdr
  constructor
  · rw [← Option.some.inj hout]
    simp only [List.length_append, hdrlen, n1, ns1, nm1, hr6, hpadlen, htaillen, r1]
    simp only [u16le, List.length_append, List.length_cons, List.length_nil]
    omega
  · rw [← Option.some.inj hout]
    rw [show hdr ++ node.1 ++ nsB.1 ++ nameB.1 ++
        (u16le attrStart ++ u16le asz ++ u16le (cnt + 1)) ++
        readAmt s (ci.startOffset + 8 + 8 + 4 + 4 + 6) 6 ++
        readAmt s (ci.startOffset + 8 + 8 + 4 + 4 + 6 + 6)
          ((ci.header.headerSize + attrStart - 36 : Nat) : Int) ++ rr ++
        readAmt s (ci.startOffset + ci.header.headerSize + attrStart + 20 * cnt)
          ((ci.header.chunkSize - ci.header.headerSize - attrStart - 20 * cnt : Nat) : Int) =
        hdr ++ (node.1 ++ nsB.1 ++ nameB.1 ++
        (u16le attrStart ++ u16le asz ++ u16le (cnt + 1)) ++
        readAmt s (ci.startOffset + 8 + 8 + 4 + 4 + 6) 6 ++
        readAmt s (ci.startOffset + 8 + 8 + 4 + 4 + 6 + 6)
          ((ci.header.headerSize + attrStart - 36 : Nat) : Int) ++ rr ++
        readAmt s (ci.startOffset + ci.header.headerSize + attrStart + 20 * cnt)
          ((ci.header.chunkSize - ci.header.headerSize - attrStart - 20 * cnt : Nat) : Int))
      from by simp [List.append_assoc]]
    exact readU32_header _ _ _ _ _ hhdr

theorem poolOffsetsLoop_spec (s : List Nat) (strLen : Nat) :
    ∀ (n pos : Nat) (r : List Nat × Nat),
      poolOffsetsLoop s strLen pos n = some r →
      r.1.length = 4 * n ∧ r.2 = pos + 4 * n := by
  intro n
  induction n with
  | zero =>
    intro pos r h
    have := Option.some.inj h
    exact ⟨by rw [← this]; simp, by rw [← this]; simp⟩
  | succ m ih =>
    intro pos r h
    simp only [poolOffsetsLoop, Option.pure_def, Option.bind_eq_bind,
      Option.bind_eq_some, Option.ite_none_right_eq_some] at h
    obtain ⟨v, hv, hg, q, hq, hr⟩ := h
    obtain ⟨q1, q2⟩ := ih (pos + 4) q hq
    have := Option.some.inj hr
    constructor
    · rw [← this]
      simp only [List.length_append, q1, u32le, List.length_cons, List.length_nil]
      ring
    · rw [← this]
      dsimp only
      rw [q2]
      ring

theorem patchResmap_spec (s : List Nat) (rm : ResmapInfo) (ci : ChunkInfo)
    (out : List Nat) (hci : rm.chunk = some ci) (hcs : 8 ≤ ci.header.chunkSize)
    (hlen : ci.startOffset + ci.header.chunkSize ≤ s.length)
    (h : patchResmap s rm = some out) :
    out.length = ci.header.chunkSize + 4 ∧
    readU32 out 4 = some (ci.header.chunkSize + 4) := by
  unfold patchResmap at h
  rw [hci] at h
  simp only [Option.pure_def, Option.bind_eq_bind, Option.bind_eq_some] at h
  obtain ⟨hdr, hhdr, hout⟩ := h
  have hamt : (ci.header.chunkSize : Int) - 8 = ((ci.header.chunkSize - 8 : Nat) : Int) := by
    omega
  rw [hamt] at hout
  have hblen : (readAmt s (ci.startOffset + 8)
      ((ci.header.chunkSize - 8 : Nat) : Int)).length = ci.header.chunkSize - 8 :=
    readAmt_len s _ _ (by omega)
  obtain ⟨hdrparts, hdrcs, hdrlen⟩ := whb_parts _ _ _ hdr hhdr
  constructor
  · rw [← Option.some.inj hout]
    simp only [List.length_append, hdrlen, hblen, u32le, List.length_cons,
      List.length_nil]
    omega
  · rw [← Option.some.inj hout]
    rw [show hdr ++ readAmt s (ci.startOffset + 8)
        ((ci.header.chunkSize - 8 : Nat) : Int) ++ u32le 0x0101000F =
        hdr ++ (readAmt s (ci.startOffset + 8)
        ((ci.header.chunkSize - 8 : Nat) : Int) ++ u32le 0x0101000F)
      from by simp [List.append_assoc]]
    exact readU32_header _ _ _ _ _ hhdr

theorem patchStringPool_spec (s : List Nat) (p : StrPoolInfo) (d : Int)
    (out : List Nat) (x : Nat)
    (hhs : p.chunk.header.headerSize = 28)
    (hd0 : 0 ≤ d) (hdsc : d < (p.stringCount : Int))
    (hx : readU32 s (p.chunk.startOffset + 28 + 4 * d.toNat) = some x)
    (hblob : 28 + 4 * p.stringCount ≤ p.stringsStart)
    (hssx : p.stringsStart + x ≤ p.chunk.header.chunkSize)
    (hlen : p.chunk.startOffset + p.chunk.header.chunkSize ≤ s.length)
    (h : patchStringPool s p d = some out) :
    out.length = p.chunk.header.chunkSize + (if p.isUtf8 then 12 else 24) + 4 ∧
    readU32 out 4 = some (p.chunk.header.chunkSize + (if p.isUtf8 then 12 else 24) + 4) := by
  simp only [patchStringPool, Option.pure_def, Option.bind_eq_bind,
    Option.bind_eq_some, Option.ite_none_left_eq_some,
    Option.ite_none_right_eq_some] at h
  obtain ⟨hdr, hhdr, hg1, x2, hx2, hg2, r, hrloop, hsan, hsty, hout⟩ := h
  rw [hhs] at hhdr hx2 hrloop hsan hout
  have hscpos : p.styleCount = 0 := by omega
  have htblamt : (4 : Int) * d = ((4 * d.toNat : Nat) : Int) := by omega
  rw [htblamt] at hx2 hrloop hout
  have hdlt : d.toNat < p.stringCount := by omega
  have htbllen : (readAmt s (p.chunk.startOffset + 28) ((4 * d.toNat : Nat) : Int)).length =
      4 * d.toNat :=
    readAmt_len s _ _ (by omega)
  rw [htbllen] at hx2 hrloop
  have hxv : x2 = x := Option.some.inj (hx2.symm.trans hx)
  rw [hxv] at hout hg2
  have hcount : ((p.stringCount : Int) - (d + 1)).toNat = p.stringCount - 1 - d.toNat := by
    omega
  rw [hcount] at hrloop
  obtain ⟨r1, r2⟩ := poolOffsetsLoop_spec s _ _ _ r hrloop
  rw [r2] at hout
  rw [hscpos] at hout
  have hstyamt : (4 : Int) * ((0 : Nat) : Int) = ((0 : Nat) : Int) := by omega
  rw [hstyamt] at hout
  have hstylen : (readAmt s (p.chunk.startOffset + 28 + 4 * d.toNat + 4 +
      4 * (p.stringCount - 1 - d.toNat)) ((0 : Nat) : Int)).length = 0 :=
    readAmt_len s _ _ (by omega)
  rw [hstylen] at hout
  have hp3 : p.chunk.startOffset + 28 + 4 * d.toNat + 4 +
      4 * (p.stringCount - 1 - d.toNat) + 0 =
      p.chunk.startOffset + 28 + 4 * p.stringCount := by omega
  rw [hp3] at hout
  have hpadamt : (p.chunk.startOffset : Int) + (p.stringsStart : Int) -
      ((p.chunk.startOffset + 28 + 4 * p.stringCount : Nat) : Int) =
      ((p.stringsStart - 28 - 4 * p.stringCount : Nat) : Int) := by omega
  rw [hpadamt] at hout
  have hpadlen : (readAmt s (p.chunk.startOffset + 28 + 4 * p.stringCount)
      ((p.stringsStart - 28 - 4 * p.stringCount : Nat) : Int)).length =
      p.stringsStart - 28 - 4 * p.stringCount :=
    readAmt_len s _ _ (by omega)
  rw [hpadlen] at hout
  have hp4 : p.chunk.startOffset + 28 + 4 * p.stringCount +
      (p.stringsStart - 28 - 4 * p.stringCount) =
      p.chunk.startOffset + p.stringsStart := by omega
  rw [hp4] at hout
  have hbloblen : (readAmt s (p.chunk.startOffset + p.stringsStart) ((x : Nat) : Int)).length =
      x :=
    readAmt_len s _ _ (by omega)
  rw [hbloblen] at hout
  have htailamt : (p.chunk.startOffset : Int) + (p.chunk.header.chunkSize : Int) -
      ((p.chunk.startOffset + p.stringsStart + x : Nat) : Int) =
      ((p.chunk.header.chunkSize - p.stringsStart - x : Nat) : Int) := by omega
  rw [htailamt] at hout
  have htaillen : (readAmt s (p.chunk.startOffset + p.stringsStart + x)
      ((p.chunk.header.chunkSize - p.stringsStart - x : Nat) : Int)).length =
      p.chunk.header.chunkSize - p.stringsStart - x :=
    readAmt_len s _ _ (by omega)
  obtain ⟨hdrparts, hdrcs, hdrlen⟩ := whb_parts _ _ _ hdr hhdr
  have hnewlen : (if p.isUtf8 = true then DEBUGGABLE_STRING_DATA_UTF8
      else DEBUGGABLE_STRING_DATA_UTF16).length = (if p.isUtf8 = true then 12 else 24) := by
    cases p.isUtf8 <;> rfl
  constructor
  · rw [← Option.some.inj hout]
    simp only [List.length_append, hdrlen, htbllen, r1, hstylen, hpadlen,
      hbloblen, htaillen, hnewlen, u32le, List.length_cons, List.length_nil]
    omega
  · rw [← Option.some.inj hout]
    simp only [List.append_assoc]
    exact readU32_header _ _ _ _ _ hhdr

theorem patchAttrExt_spec (s : List Nat) (ci : ChunkInfo) (cmp : Int)
    (r : List Nat × Nat) (attrStart cnt : Nat)
    (hattr : readU16 s (ci.startOffset + 16 + 4 + 4) = some attrStart)
    (hcnt : readU16 s (ci.startOffset + 16 + 4 + 4 + 4) = some cnt)
    (hpad : 36 ≤ ci.header.headerSize + attrStart)
    (hfit : ci.header.headerSize + attrStart + 20 * cnt ≤ ci.header.chunkSize)
    (hlen : ci.startOffset + ci.header.chunkSize ≤ s.length)
    (h : patchAttrExt s (ci.startOffset + 16) ci cmp = some r) :
    r.1.length = ci.header.chunkSize - 16 ∧ r.2 = ci.startOffset + ci.header.chunkSize := by
  have hcs36 : 36 ≤ ci.header.chunkSize := by omega
  simp only [patchAttrExt, Option.pure_def, Option.bind_eq_bind,
    Option.bind_eq_some] at h
  obtain ⟨a, ha, b, hb, as2, has2, asz, hasz, cn, hcn, q, hq, hout⟩ := h
  obtain ⟨a1, a2, _⟩ := patchStringRef_spec s (ci.startOffset + 16) cmp a ha
  rw [a2] at hb
  obtain ⟨b1, b2, _⟩ := patchStringRef_spec s (ci.startOffset + 16 + 4) cmp b hb
  rw [b2] at has2 hcn hq hout
  have hasv : as2 = attrStart := Option.some.inj (has2.symm.trans hattr)
  have hcnv : cn = cnt := Option.some.inj (hcn.symm.trans hcnt)
  rw [hasv, hcnv] at hq hout
  have hr6 : (readAmt s (ci.startOffset + 16 + 4 + 4 + 6) (6 : Int)).length = 6 :=
    readAmt_len s _ 6 (by omega)
  rw [hr6] at hq hout
  have hpadamt : (ci.startOffset : Int) + (ci.header.headerSize : Int) +
      (attrStart : Int) - ((ci.startOffset + 16 + 4 + 4 + 6 + 6 : Nat) : Int) =
      ((ci.header.headerSize + attrStart - 36 : Nat) : Int) := by omega
  rw [hpadamt] at hq hout
  have hpadlen : (readAmt s (ci.startOffset + 16 + 4 + 4 + 6 + 6)
      ((ci.header.headerSize + attrStart - 36 : Nat) : Int)).length =
      ci.header.headerSize + attrStart - 36 :=
    readAmt_len s _ _ (by omega)
  rw [hpadlen] at hq
  have hp5 : ci.startOffset + 16 + 4 + 4 + 6 + 6 +
      (ci.header.headerSize + attrStart - 36) =
      ci.startOffset + ci.header.headerSize + attrStart := by omega
  rw [hp5] at hq
  obtain ⟨q1, q2⟩ := patchAttrsLoop_spec s cmp cnt
    (ci.startOffset + ci.header.headerSize + attrStart) q (by omega) hq
  rw [q2] at hout
  have htailamt : ((ci.startOffset + ci.header.chunkSize : Nat) : Int) -
      ((ci.startOffset + ci.header.headerSize + attrStart + 20 * cnt : Nat) : Int) =
      ((ci.header.chunkSize - ci.header.headerSize - attrStart - 20 * cnt : Nat) : Int) := by
    omega
  rw [htailamt] at hout
  have htaillen : (readAmt s (ci.startOffset + ci.header.headerSize + attrStart + 20 * cnt)
      ((ci.header.chunkSize - ci.header.headerSize - attrStart - 20 * cnt : Nat) : Int)).length =
      ci.header.chunkSize - ci.header.headerSize - attrStart - 20 * cnt :=
    readAmt_len s _ _ (by omega)
  constructor
  · rw [← Option.some.inj hout]
    simp only [List.length_append, a1, b1, hr6, hpadlen, htaillen, q1, u16le,
      List.length_cons, List.length_nil]
    omega
  · rw [← Option.some.inj hout]
    dsimp only
    rw [htaillen]
    omega

theorem readU32_copy8 (s : List Nat) (so : Nat) (rest : List Nat) (v : Nat)
    (hlen : so + 8 ≤ s.length) (hv : readU32 s (so + 4) = some v) :
    readU32 ((readAmt s so (8 : Int)) ++ rest) 4 = some v := by
  have hg : ∀ i, i < 8 → ((readAmt s so (8 : Int)) ++ rest).get? i = s.get? (so + i) := by
    intro i hi
    unfold readAmt
    rw [if_neg (by omega)]
    have hlen8 : ((s.drop so).take (8 : Int).toNat).length = 8 := by
      simp only [List.length_take, List.length_drop]
      omega
    rw [List.get?_append (by rw [hlen8]; omega)]
    rw [List.get?_take (by omega : i < (8 : Int).toNat)]
    rw [List.get?_drop]
  simp only [readU32, Option.bind_eq_bind, Option.bind_eq_some] at hv
  obtain ⟨b0, h0, b1, h1, b2, h2, b3, h3, hvv⟩ := hv
  have e0 : ((readAmt s so (8 : Int)) ++ rest).get? 4 = some b0 := (hg 4 (by omega)).trans h0
  have e1 : ((readAmt s so (8 : Int)) ++ rest).get? 5 = some b1 := by
    rw [hg 5 (by omega), show so + 5 = so + 4 + 1 from by omega]
    exact h1
  have e2 : ((readAmt s so (8 : Int)) ++ rest).get? 6 = some b2 := by
    rw [hg 6 (by omega), show so + 6 = so + 4 + 2 from by omega]
    exact h2
  have e3 : ((readAmt s so (8 : Int)) ++ rest).get? 7 = some b3 := by
    rw [hg 7 (by omega), show so + 7 = so + 4 + 3 from by omega]
    exact h3
  rw [show (5 : Nat) = 4 + 1 from rfl] at e1
  rw [show (6 : Nat) = 4 + 2 from rfl] at e2
  rw [show (7 : Nat) = 4 + 3 from rfl] at e3
  rw [readU32_of_get _ 4 b0 b1 b2 b3 e0 e1 e2 e3]
  rw [Option.some.injEq]
  exact Option.some.inj hvv

theorem readCommonHeader_cs (s : List Nat) (pos : Nat) (ch : CommonHeader)
    (h : readCommonHeader s pos = some ch) :
    readU32 s (pos + 4) = some ch.chunkSize ∧ pos + 8 ≤ s.length := by
  unfold readCommonHeader at h
  split at h
  · simp at h
  · rename_i hnl
    simp only [Option.pure_def, Option.bind_eq_bind, Option.bind_eq_some] at h
    obtain ⟨t, ht, hs2, hhs2, cs, hcs, hch⟩ := h
    have := Option.some.inj hch
    exact ⟨by rw [← this]; exact hcs, by omega⟩

theorem patchChunk_ok (s : List Nat) (ci : ChunkInfo) (cmp : Int) (out : List Nat)
    (hok : chunkOk s ci) (h : patchChunk s ci cmp = some out) :
    out.length = ci.header.chunkSize ∧
    (readCommonHeader s ci.startOffset = some ci.header →
      readU32 out 4 = some ci.header.chunkSize) := by
  obtain ⟨hlen, hcs8, hty⟩ := hok
  have hdr8 : (readAmt s ci.startOffset (8 : Int)).length = 8 :=
    readAmt_len s _ 8 (by omega)
  simp only [patchChunk, Option.pure_def, Option.bind_eq_bind, Option.bind_eq_some,
    hdr8] at h
  have hu32 : ∀ rest, readCommonHeader s ci.startOffset = some ci.header →
      readU32 (readAmt s ci.startOffset (8 : Int) ++ rest) 4 =
        some ci.header.chunkSize := by
    intro rest hch
    exact readU32_copy8 s ci.startOffset rest ci.header.chunkSize (by omega)
      (readCommonHeader_cs s ci.startOffset ci.header hch).1
  rcases hty with hnx | hfix | hcd | hse | hel
  · rw [if_neg (by omega)] at h
    have hamt : (ci.header.chunkSize : Int) - 8 = ((ci.header.chunkSize - 8 : Nat) : Int) := by
      omega
    rw [hamt] at h
    have hblen : (readAmt s (ci.startOffset + 8)
        ((ci.header.chunkSize - 8 : Nat) : Int)).length = ci.header.chunkSize - 8 :=
      readAmt_len s _ _ (by omega)
    constructor
    · rw [← Option.some.inj h]
      simp only [List.length_append, hdr8, hblen]
      omega
    · intro hch
      rw [← Option.some.inj h]
      exact hu32 _ hch
  · obtain ⟨ht, hcs⟩ := hfix
    rw [if_pos (by omega)] at h
    simp only [Option.pure_def, Option.bind_eq_bind, Option.bind_eq_some] at h
    obtain ⟨node, hnode, h⟩ := h
    obtain ⟨n1, n2⟩ := patchNode_spec s (ci.startOffset + 8) cmp node (by omega) hnode
    rcases ht with ht | ht | ht
    · rw [ht] at h
      rw [if_pos (by omega)] at h
      simp only [Option.pure_def, Option.bind_eq_bind, Option.bind_eq_some] at h
      obtain ⟨e, he, hout⟩ := h
      rw [n2] at he
      obtain ⟨e1, _⟩ := patchNamespaceExt_spec s (ci.startOffset + 16) cmp e he
      constructor
      · rw [← Option.some.inj hout]
        simp only [List.length_append, hdr8, n1, e1]
        omega
      · intro hch
        rw [← Option.some.inj hout]
        simp only [List.append_assoc]
        exact hu32 _ hch
    · rw [ht] at h
      rw [if_pos (by omega)] at h
      simp only [Option.pure_def, Option.bind_eq_bind, Option.bind_eq_some] at h
      obtain ⟨e, he, hout⟩ := h
      rw [n2] at he
      obtain ⟨e1, _⟩ := patchNamespaceExt_spec s (ci.startOffset + 16) cmp e he
      constructor
      · rw [← Option.some.inj hout]
        simp only [List.length_append, hdr8, n1, e1]
        omega
      · intro hch
        rw [← Option.some.inj hout]
        simp only [List.append_assoc]
        exact hu32 _ hch
    · rw [ht] at h
      rw [if_neg (by omega), if_neg (by omega), if_pos (by omega)] at h
      simp only [Option.pure_def, Option.bind_eq_bind, Option.bind_eq_some] at h
      obtain ⟨e, he, hout⟩ := h
      rw [n2] at he
      obtain ⟨e1, _⟩ := patchEndElementExt_spec s (ci.startOffset + 16) cmp e he
      constructor
      · rw [← Option.some.inj hout]
        simp only [List.length_append, hdr8, n1, e1]
        omega
      · intro hch
        rw [← Option.some.inj hout]
        simp only [List.append_assoc]
        exact hu32 _ hch
  · obtain ⟨ht, hcs⟩ := hcd
    rw [ht] at h
    rw [if_pos (by omega)] at h
    simp only [Option.pure_def, Option.bind_eq_bind, Option.bind_eq_some] at h
    obtain ⟨node, hnode, h⟩ := h
    obtain ⟨n1, n2⟩ := patchNode_spec s (ci.startOffset + 8) cmp node (by omega) hnode
    rw [if_neg (show ¬((0x104 : Nat) = 0x100 ∨ (0x104 : Nat) = 0x101) from by decide)] at h
    rw [if_neg (show (0x104 : Nat) ≠ 0x102 from by decide)] at h
    rw [if_neg (show (0x104 : Nat) ≠ 0x103 from by decide)] at h
    simp only [if_true] at h
    simp only [Option.pure_def, Option.bind_eq_bind, Option.bind_eq_some] at h
    obtain ⟨e, he, hout⟩ := h
    rw [n2] at he
    obtain ⟨e1, _⟩ := patchCDataExt_spec s (ci.startOffset + 16) cmp e (by omega) he
    constructor
    · rw [← Option.some.inj hout]
      simp only [List.length_append, hdr8, n1, e1]
      omega
    · intro hch
      rw [← Option.some.inj hout]
      simp only [List.append_assoc]
      exact hu32 _ hch
  · obtain ⟨ht, attrStart, cnt, hattr, hcnt, hpad, hfit⟩ := hse
    rw [ht] at h
    rw [if_pos (by omega)] at h
    simp only [Option.pure_def, Option.bind_eq_bind, Option.bind_eq_some] at h
    obtain ⟨node, hnode, h⟩ := h
    obtain ⟨n1, n2⟩ := patchNode_spec s (ci.startOffset + 8) cmp node (by omega) hnode
    rw [if_neg (show ¬((0x102 : Nat) = 0x100 ∨ (0x102 : Nat) = 0x101) from by decide)] at h
    simp only [if_true] at h
    simp only [Option.pure_def, Option.bind_eq_bind, Option.bind_eq_some] at h
    obtain ⟨e, he, hout⟩ := h
    rw [n2] at he
    obtain ⟨e1, _⟩ := patchAttrExt_spec s ci cmp e attrStart cnt hattr hcnt hpad hfit
      hlen he
    constructor
    · rw [← Option.some.inj hout]
      simp only [List.length_append, hdr8, n1, e1]
      omega
    · intro hch
      rw [← Option.some.inj hout]
      simp only [List.append_assoc]
      exact hu32 _ hch
  · obtain ⟨ht1, ht2, hhs, hcs16⟩ := hel
    rw [if_pos (by omega)] at h
    simp only [Option.pure_def, Option.bind_eq_bind, Option.bind_eq_some] at h
    obtain ⟨node, hnode, h⟩ := h
    obtain ⟨n1, n2⟩ := patchNode_spec s (ci.startOffset + 8) cmp node (by omega) hnode
    rw [if_neg (by omega), if_neg (by omega), if_neg (by omega), if_neg (by omega)] at h
    rw [n2, hhs] at h
    have hamt : (ci.header.chunkSize : Int) - ((16 : Nat) : Int) =
        ((ci.header.chunkSize - 16 : Nat) : Int) := by omega
    rw [hamt] at h
    have hblen : (readAmt s (ci.startOffset + 16)
        ((ci.header.chunkSize - 16 : Nat) : Int)).length = ci.header.chunkSize - 16 :=
      readAmt_len s _ _ (by omega)
    constructor
    · rw [← Option.some.inj h]
      simp only [List.length_append, hdr8, n1, hblen]
      omega
    · intro hch
      rw [← Option.some.inj h]
      simp only [List.append_assoc]
      exact hu32 _ hch

theorem drop_cons_of_get (l : List ChunkInfo) :
    ∀ (i : Nat) (c : ChunkInfo), l.get? i = some c →
      l.drop i = c :: l.drop (i + 1) := by
  induction l with
  | nil => intro i c h; simp at h
  | cons a t ih =>
    intro i c h
    cases i with
    | zero =>
      simp at h
      rw [h]
      rfl
    | succ m =>
      simp only [List.get?_cons_succ] at h
      simp only [List.drop_succ_cons]
      exact ih m c h

theorem ite_le_split (j m a : Nat) :
    (if j ≤ m then a else 0) = (if j = m then a else 0) + (if j + 1 ≤ m then a else 0) := by
  by_cases h1 : j = m
  · subst h1
    rw [if_pos (le_refl j), if_pos rfl, if_neg (by omega)]
    omega
  · by_cases h2 : j + 1 ≤ m
    · rw [if_pos (by omega), if_neg h1, if_pos h2]
      omega
    · rw [if_neg (by omega), if_neg h1, if_neg h2]

theorem chunkLoop_sum
    (s : List Nat) (chunks : List ChunkInfo) (spIdx ri appIdx : Nat)
    (pool : StrPoolInfo) (rm : ResmapInfo) (nsId : Nat) (d : Int) (x : Nat)
    (rmc appc : ChunkInfo)
    (hsp : chunks.get? spIdx = some pool.chunk)
    (hrc : chunks.get? ri = some rmc)
    (hac : chunks.get? appIdx = some appc)
    (hrmchunk : rm.chunk = some rmc)
    (hne1 : spIdx ≠ ri) (hne2 : spIdx ≠ appIdx) (hne3 : ri ≠ appIdx)
    (hhs : pool.chunk.header.headerSize = 28)
    (hd0 : 0 ≤ d) (hdsc : d < (pool.stringCount : Int))
    (hx : readU32 s (pool.chunk.startOffset + 28 + 4 * d.toNat) = some x)
    (hblob : 28 + 4 * pool.stringCount ≤ pool.stringsStart)
    (hssx : pool.stringsStart + x ≤ pool.chunk.header.chunkSize)
    (hplen : pool.chunk.startOffset + pool.chunk.header.chunkSize ≤ s.length)
    (hrcs : 8 ≤ rmc.header.chunkSize)
    (hrlen : rmc.startOffset + rmc.header.chunkSize ≤ s.length)
    (aAttrStart aCnt : Nat)
    (haattr : readU16 s (appc.startOffset + 8 + 8 + 4 + 4) = some aAttrStart)
    (hacnt : readU16 s (appc.startOffset + 8 + 8 + 4 + 4 + 4) = some aCnt)
    (hapad : 36 ≤ appc.header.headerSize + aAttrStart)
    (hafit : appc.header.headerSize + aAttrStart + 20 * aCnt ≤ appc.header.chunkSize)
    (halen : appc.startOffset + appc.header.chunkSize ≤ s.length)
    (hothers : ∀ j ci, chunks.get? j = some ci → j ≠ spIdx → j ≠ ri → j ≠ appIdx →
      chunkOk s ci) :
    ∀ (fuel i : Nat) (body : List Nat),
      chunkLoop s chunks spIdx (some ri) appIdx pool rm nsId d fuel i = some body →
      body.length = ((chunks.drop i).map (fun c => c.header.chunkSize)).sum +
        ((if i ≤ spIdx then (if pool.isUtf8 then 12 else 24) + 4 else 0) +
         (if i ≤ ri then 4 else 0) + (if i ≤ appIdx then 20 else 0)) := by
  have hsplen : spIdx < chunks.length := (List.get?_eq_some.1 hsp).1
  have hrilen : ri < chunks.length := (List.get?_eq_some.1 hrc).1
  have happlen : appIdx < chunks.length := (List.get?_eq_some.1 hac).1
  intro fuel
  induction fuel with
  | zero => intro i body h; simp [chunkLoop] at h
  | succ m ih =>
    intro i body h
    simp only [chunkLoop] at h
    by_cases hil : i < chunks.length
    · rw [if_pos hil] at h
      rw [if_neg (by simp)] at h
      by_cases hisp : i = spIdx
      · rw [if_pos hisp] at h
        simp only [Option.pure_def, Option.bind_eq_bind, Option.bind_eq_some] at h
        obtain ⟨b, hb, rest, hrest, hout⟩ := h
        obtain ⟨b1, _⟩ := patchStringPool_spec s pool d b x hhs hd0 hdsc hx hblob
          hssx hplen hb
        have hr1 := ih (i + 1) rest hrest
        rw [← Option.some.inj hout]
        subst hisp
        rw [drop_cons_of_get chunks i pool.chunk hsp]
        simp only [List.map_cons, List.sum_cons, List.length_append, b1, hr1]
        rw [ite_le_split i i ((if pool.isUtf8 = true then 12 else 24) + 4),
          ite_le_split i ri 4, ite_le_split i appIdx 20,
          if_pos rfl, if_neg (fun hh => hne1 hh), if_neg (fun hh => hne2 hh)]
        omega
      · rw [if_neg hisp] at h
        by_cases hiri : ri = i
        · rw [if_pos (by rw [hiri])] at h
          simp only [Option.pure_def, Option.bind_eq_bind, Option.bind_eq_some] at h
          obtain ⟨b, hb, rest, hrest, hout⟩ := h
          obtain ⟨b1, _⟩ := patchResmap_spec s rm rmc b hrmchunk hrcs hrlen hb
          have hr1 := ih (i + 1) rest hrest
          rw [← Option.some.inj hout]
          rw [drop_cons_of_get chunks i rmc (hiri ▸ hrc)]
          simp only [List.map_cons, List.sum_cons, List.length_append, b1, hr1]
          rw [ite_le_split i spIdx ((if pool.isUtf8 = true then 12 else 24) + 4),
            ite_le_split i ri 4, ite_le_split i appIdx 20,
            if_neg hisp, if_pos hiri.symm, if_neg (fun hh => hne3 (hiri.symm ▸ hh))]
          omega
        · rw [if_neg (fun hh => hiri (Option.some.inj hh))] at h
          by_cases hiapp : i = appIdx
          · rw [if_pos hiapp] at h
            rw [show chunks.get? i = some appc from hiapp ▸ hac] at h
            simp only [Option.pure_def, Option.bind_eq_bind, Option.bind_eq_some] at h
            obtain ⟨b, hb, rest, hrest, hout⟩ := h
            obtain ⟨b1, _⟩ := patchApplicationElement_spec s appc nsId d rm b
              aAttrStart aCnt haattr hacnt hapad hafit halen hb
            have hr1 := ih (i + 1) rest hrest
            rw [← Option.some.inj hout]
            rw [drop_cons_of_get chunks i appc (hiapp ▸ hac)]
            simp only [List.map_cons, List.sum_cons, List.length_append, b1, hr1]
            rw [ite_le_split i spIdx ((if pool.isUtf8 = true then 12 else 24) + 4),
              ite_le_split i ri 4, ite_le_split i appIdx 20,
              if_neg hisp, if_neg (show ¬(i = ri) from fun hh => hiri hh.symm),
              if_pos hiapp]
            omega
          · rw [if_neg hiapp] at h
            cases hget : chunks.get? i with
            | none =>
              rw [hget] at h
              simp at h
            | some ci =>
              rw [hget] at h
              simp only [Option.pure_def, Option.bind_eq_bind, Option.bind_eq_some] at h
              obtain ⟨b, hb, rest, hrest, hout⟩ := h
              obtain ⟨b1, _⟩ := patchChunk_ok s ci d b
                (hothers i ci hget hisp (fun hh => hiri hh.symm) hiapp) hb
              have hr1 := ih (i + 1) rest hrest
              rw [← Option.some.inj hout]
              rw [drop_cons_of_get chunks i ci hget]
              simp only [List.map_cons, List.sum_cons, List.length_append, b1, hr1]
              rw [ite_le_split i spIdx ((if pool.isUtf8 = true then 12 else 24) + 4),
                ite_le_split i ri 4, ite_le_split i appIdx 20,
                if_neg hisp, if_neg (show ¬(i = ri) from fun hh => hiri hh.symm),
                if_neg hiapp]
              omega
    · rw [if_neg hil] at h
      rw [← Option.some.inj h]
      rw [List.drop_eq_nil_of_le (by omega)]
      simp only [List.map_nil, List.sum_nil, List.length_nil]
      rw [if_neg (by omega), if_neg (by omega), if_neg (by omega)]

theorem readU32_take_prefix (inp rest2 : List Nat) (n v : Nat) (h8 : 8 ≤ n)
    (hlen : 8 ≤ inp.length) (hv : readU32 inp 4 = some v) :
    readU32 (inp.take n ++ rest2) 4 = some v := by
  have hg : ∀ i, i < 8 → (inp.take n ++ rest2).get? i = inp.get? i := by
    intro i hi
    rw [List.get?_append (by simp only [List.length_take]; omega)]
    exact List.get?_take (by omega)
  simp only [readU32, Option.bind_eq_bind, Option.bind_eq_some] at hv
  obtain ⟨b0, h0, b1, h1, b2, h2, b3, h3, hvv⟩ := hv
  rw [readU32_of_get _ 4 b0 b1 b2 b3 ((hg 4 (by omega)).trans h0)
    ((hg 5 (by omega)).trans h1) ((hg 6 (by omega)).trans h2)
    ((hg 7 (by omega)).trans h3)]
  rw [Option.some.injEq]
  exact Option.some.inj hvv

theorem fastPath_total (fuel : Nat) (inp : List Nat) (pv : ParseView) (k : Nat)
    (a : Attr) (out : List Nat)
    (hpv : parseManifest fuel inp = some pv)
    (hfind : findDebuggableAttributeAux inp pv.pool pv.rm pv.attrs 0 = some (some k))
    (ha : pv.attrs.get? k = some a)
    (hb : a.startOffset + 20 ≤ inp.length)
    (hhdr : readU32 inp 4 = some inp.length)
    (h : patchManifest fuel inp = some out) :
    out.length = inp.length ∧ readU32 out 4 = some out.length := by
  rw [fastPath_eq fuel inp pv k a hpv hfind ha] at h
  have hout := Option.some.inj h
  constructor
  · rw [← hout]
    simp only [List.length_append, List.length_take, List.length_drop,
      List.length_cons, List.length_nil]
    omega
  · rw [← hout]
    have hl8 : 8 ≤ inp.length := by omega
    have hpre := readU32_take_prefix inp
      ([0xFF, 0xFF, 0xFF, 0xFF] ++ inp.drop (a.startOffset + 16 + 4))
      (a.startOffset + 16) inp.length (by omega) hl8 hhdr
    rw [List.append_assoc, hpre, Option.some.injEq]
    simp only [List.length_append, List.length_take, List.length_drop,
      List.length_cons, List.length_nil]
    omega

theorem slowPath_total (fuel : Nat) (inp : List Nat) (pv : ParseView)
    (ri : Nat) (rmc appc : ChunkInfo) (x aAttrStart aCnt : Nat) (out : List Nat)
    (hpv : parseManifest fuel inp = some pv)
    (hfind : findDebuggableAttributeAux inp pv.pool pv.rm pv.attrs 0 = some none)
    (hrm : pv.rmIdx = some ri)
    (hsp : pv.chunks.get? pv.spIdx = some pv.pool.chunk)
    (hrc : pv.chunks.get? ri = some rmc)
    (hac : pv.chunks.get? pv.appIdx = some appc)
    (hrmchunk : pv.rm.chunk = some rmc)
    (hne1 : pv.spIdx ≠ ri) (hne2 : pv.spIdx ≠ pv.appIdx) (hne3 : ri ≠ pv.appIdx)
    (hhs : pv.pool.chunk.header.headerSize = 28)
    (hd0 : 0 ≤ pv.rm.len) (hdsc : pv.rm.len < (pv.pool.stringCount : Int))
    (hx : readU32 inp (pv.pool.chunk.startOffset + 28 + 4 * pv.rm.len.toNat) = some x)
    (hblob : 28 + 4 * pv.pool.stringCount ≤ pv.pool.stringsStart)
    (hssx : pv.pool.stringsStart + x ≤ pv.pool.chunk.header.chunkSize)
    (hplen : pv.pool.chunk.startOffset + pv.pool.chunk.header.chunkSize ≤ inp.length)
    (hrcs : 8 ≤ rmc.header.chunkSize)
    (hrlen : rmc.startOffset + rmc.header.chunkSize ≤ inp.length)
    (haattr : readU16 inp (appc.startOffset + 8 + 8 + 4 + 4) = some aAttrStart)
    (hacnt : readU16 inp (appc.startOffset + 8 + 8 + 4 + 4 + 4) = some aCnt)
    (hapad : 36 ≤ appc.header.headerSize + aAttrStart)
    (hafit : appc.header.headerSize + aAttrStart + 20 * aCnt ≤ appc.header.chunkSize)
    (halen : appc.startOffset + appc.header.chunkSize ≤ inp.length)
    (hothers : ∀ j ci, pv.chunks.get? j = some ci → j ≠ pv.spIdx → j ≠ ri →
      j ≠ pv.appIdx → chunkOk inp ci)
    (htile : ((pv.chunks.map (fun c => c.header.chunkSize)).sum) + 8 = inp.length)
    (hfh : pv.fh.chunkSize = inp.length)
    (h : patchManifest fuel inp = some out) :
    out.length = inp.length + ((if pv.pool.isUtf8 then 12 else 24) + 28) ∧
    readU32 out 4 = some out.length := by
  simp only [patchManifest, Option.bind_eq_bind, hpv, Option.some_bind, hfind] at h
  simp only [slowPath, hrm, Option.pure_def, Option.bind_eq_bind,
    Option.bind_eq_some] at h
  obtain ⟨hdr, hhdr, nsId0, hns, body, hbody, hout⟩ := h
  rw [if_neg (show ¬((some ri : Option Nat) = none) from by simp)] at hhdr
  have hsum := chunkLoop_sum inp pv.chunks pv.spIdx ri pv.appIdx pv.pool pv.rm
    (if pv.rm.len ≤ (nsId0 : Int) then nsId0 + 1 else nsId0) pv.rm.len x rmc appc
    hsp hrc hac hrmchunk hne1 hne2 hne3 hhs hd0 hdsc hx hblob hssx hplen hrcs
    hrlen aAttrStart aCnt haattr hacnt hapad hafit halen hothers fuel 0 body hbody
  simp only [List.drop_zero, Nat.le_zero_eq, if_pos (Nat.zero_le _)] at hsum
  obtain ⟨hdrparts, hdrcs, hdrlen⟩ := whb_parts _ _ _ hdr hhdr
  have houtlen : out.length = inp.length + ((if pv.pool.isUtf8 then 12 else 24) + 28) := by
    rw [← Option.some.inj hout]
    simp only [List.length_append, hdrlen, hsum]
    omega
  refine ⟨houtlen, ?_⟩
  have hr := readU32_header _ _ _ _ body hhdr
  rw [← Option.some.inj hout, hr, Option.some.injEq]
  simp only [List.length_append, hdrlen, hsum]
  omega

end Lemmas

/-! Claim theorems. -/

section Claims

set_option maxRecDepth 100000

/-- C1, counterexample.  On `mFastD10` (fast path, existing debuggable
attribute typed `0x10`) the patcher succeeds, yet the single attribute of
the output's application element has `dataType = 0x10`, not `0x12`: the
fast path overwrites only the data word.  So the claim that the output
always carries `dataType = 0x12` is false. -/
theorem spec_C1_counterexample :
    patchManifest 12 mFastD10 = some mFastD10Out ∧
    (parseManifest 12 mFastD10Out).map ParseView.attrs =
      some [⟨119, 0xFFFFFFFF, 0, 0xFFFFFFFF, 8, 0x10, 0xFFFFFFFF⟩] :=
  ⟨by decide, by decide⟩

/-- C1, amended.  For every input, the application element of the output
contains the debuggable attribute with `data = 0xFFFFFFFF`; `dataType` is
`0x12` on the slow path (the inserted 20-byte record is
`ns, name, 0xFFFFFFFF, 0x12000008, 0xFFFFFFFF`, whose little-endian bytes
encode `rawValue = 0xFFFFFFFF`, `size = 8`, `res0 = 0`, `dataType = 0x12`,
`data = 0xFFFFFFFF`), while on the fast path only the data word is
overwritten and `dataType` keeps the input attribute's value.  Part one:
the fast path emits the input with the 4 bytes at the found attribute's
offset + 16 replaced by `0xFFFFFFFF`, and that attribute's name string and
resource id are the debuggable ones.  Part two: every successful slow-path
attribute rewrite contains the record above. -/
theorem spec_C1 :
    (∀ (fuel : Nat) (inp : List Nat) (pv : ParseView) (k : Nat) (a : Attr),
      parseManifest fuel inp = some pv →
      findDebuggableAttributeAux inp pv.pool pv.rm pv.attrs 0 = some (some k) →
      pv.attrs.get? k = some a →
      patchManifest fuel inp = some (inp.take (a.startOffset + 16) ++
        [0xFF, 0xFF, 0xFF, 0xFF] ++ inp.drop (a.startOffset + 16 + 4)) ∧
      readStringE inp pv.pool a.nameId = some (some debuggableCodes) ∧
      readResIdE inp pv.rm a.nameId = some (some 0x0101000F)) ∧
    (∀ (s : List Nat) (rm : ResmapInfo) (d : Int) (nsId : Nat)
        (cnt pos : Nat) (b : List Nat) (p2 : Nat),
      patchApplicationAttributes s pos cnt rm d nsId = some (b, p2) →
      ∃ pre post, b = pre ++ (u32le nsId ++ u32le d.toNat ++
        u32le 0xFFFFFFFF ++ u32le 0x12000008 ++ u32le 0xFFFFFFFF) ++ post) := by
  constructor
  · intro fuel inp pv k a hpv hfind ha
    obtain ⟨a2, ha2, h1, h2, _⟩ := findAux_sound inp pv.pool pv.rm pv.attrs 0 k hfind
    have haa : a2 = a := by
      rw [Nat.sub_zero] at ha2
      exact Option.some.inj (ha2 ▸ ha ▸ rfl)
    exact ⟨fastPath_eq fuel inp pv k a hpv hfind ha, haa ▸ h1, haa ▸ h2⟩
  · intro s rm d nsId cnt pos b p2 h
    obtain ⟨nb, pre, post, hnb, hb⟩ := appAttrs_contains s rm d nsId cnt pos b p2 h
    refine ⟨pre, post, ?_⟩
    unfold newDebuggableAttr at hnb
    split at hnb
    · exact hb.trans (by rw [← Option.some.inj hnb])
    · simp at hnb

/-- C1, witness: part one at `mFastD10`, part two at a concrete successful
rewrite (the zero-attribute application element of `mUtf8Slow`). -/
theorem spec_C1_witness :
    (patchManifest 12 mFastD10 = some (mFastD10.take 135 ++
        [0xFF, 0xFF, 0xFF, 0xFF] ++ mFastD10.drop 139) ∧
      readStringE mFastD10 pvFastD10.pool 0 = some (some debuggableCodes) ∧
      readResIdE mFastD10 pvFastD10.rm 0 = some (some 0x0101000F)) ∧
    (∃ pre post, (u32le 2 ++ u32le 0 ++ u32le 0xFFFFFFFF ++
        u32le 0x12000008 ++ u32le 0xFFFFFFFF) = pre ++ (u32le 2 ++ u32le 0 ++
        u32le 0xFFFFFFFF ++ u32le 0x12000008 ++ u32le 0xFFFFFFFF) ++ post) :=
  ⟨spec_C1.1 12 mFastD10 pvFastD10 0 ⟨119, 0xFFFFFFFF, 0, 0xFFFFFFFF, 8, 0x10, 0⟩
      (by decide) (by decide) (by decide),
    spec_C1.2 mUtf8Slow ⟨some ⟨103, ⟨0x180, 8, 8⟩⟩, 0⟩ 0 2 0 147
      (u32le 2 ++ u32le 0 ++ u32le 0xFFFFFFFF ++ u32le 0x12000008 ++
        u32le 0xFFFFFFFF) 147 (by decide)⟩

/-- C2: the claim says a manifest with no resource-map chunk is patched
successfully with a fresh 12-byte resource map injected after the string
pool.  The code instead never terminates on such manifests (whenever any
chunk follows the string pool): the injection branch of the chunk loop
decrements and re-increments the index and nothing records the injection,
so the branch fires forever.  On the concrete no-resource-map manifest
`mNoRm` the model yields no output for any fuel. -/
theorem spec_C2 : ∀ fuel, patchManifest fuel mNoRm = none := by
  intro fuel
  match fuel with
  | 0 => decide
  | 1 => decide
  | 2 => decide
  | 3 => decide
  | (n + 4) =>
    have hdiv := chunkLoop_stuck mNoRm mNoRmChunks 0 1 mNoRmPoolInfo ⟨none, 0⟩ 2 0 1
      rfl (by decide) (n + 3)
    have hred : chunkLoop mNoRm mNoRmChunks 0 none 1 mNoRmPoolInfo ⟨none, 0⟩ 2 0
        (n + 4) 0 =
        (chunkLoop mNoRm mNoRmChunks 0 none 1 mNoRmPoolInfo ⟨none, 0⟩ 2 0 (n + 3) 1).bind
          (fun rest => some ((patchStringPool mNoRm mNoRmPoolInfo 0).getD [] ++ rest)) :=
      rfl
    have hform : patchManifest (n + 4) mNoRm =
        (chunkLoop mNoRm mNoRmChunks 0 none 1 mNoRmPoolInfo ⟨none, 0⟩ 2 0 (n + 4) 0).bind
          (fun body => some (u16le 3 ++ u16le 8 ++ u32le 187 ++ body)) := rfl
    rw [hform, hred, hdiv]
    rfl

/-- C3: the claim says an attribute whose name index has no resource-map
entry is treated as having a resource id above every real one.  The code
instead evaluates `readResId(...) > DEBUGGABLE_RES_ID` with `readResId`
returning Python `None`, which raises `TypeError` in Python 3: as soon as
the slow-path attribute loop reaches such an attribute the whole patch
fails, for any state of the inserted flag. -/
theorem spec_C3 (s : List Nat) (rm : ResmapInfo) (cmp : Int) (nsId : Nat)
    (d : Int) (pos : Nat) (ins : Bool) (n : Nat) (nm : Nat)
    (hname : readU32 s (pos + 4) = some nm)
    (hres : readResIdE s rm nm = some none) :
    patchAppAttrsLoop s rm cmp nsId d pos ins (n + 1) = none ∧
    patchApplicationAttributes s pos (n + 1) rm d nsId = none := by
  have h1 : patchAppAttrsLoop s rm cmp nsId d pos ins (n + 1) = none := by
    simp only [patchAppAttrsLoop, hname, Option.bind_eq_bind, Option.some_bind, hres]
  have h2 : patchAppAttrsLoop s rm d nsId d pos false (n + 1) = none := by
    simp only [patchAppAttrsLoop, hname, Option.bind_eq_bind, Option.some_bind, hres]
  exact ⟨h1, by simp [patchApplicationAttributes, h2]⟩

/-- C3, witness: an attribute record whose name (string 5) has no entry in
an absent resource map makes the rewrite fail. -/
theorem spec_C3_witness :
    patchApplicationAttributes [0, 0, 0, 0, 5, 0, 0, 0] 0 1 ⟨none, 0⟩ 0 2 = none :=
  (spec_C3 [0, 0, 0, 0, 5, 0, 0, 0] ⟨none, 0⟩ 0 2 0 0 false 0 5
    (by decide) (by decide)).2

/-- C4: the claim says the slow-path string-pool rewrite increments the
`name` field of each 12-byte style record.  The code instead always fails
when `styleCount > 0`: source line 180 is `unpack(readInt(f, 3))`, which
passes the tuple returned by `readInt` as the only argument of `unpack`
and raises `TypeError` before any style record is written. -/
theorem spec_C4 (s : List Nat) (p : StrPoolInfo) (d : Int)
    (h : 0 < p.styleCount) : patchStringPool s p d = none := by
  unfold patchStringPool
  simp only [if_pos h, Option.bind_eq_bind, ite_self]
  simp [Option.bind_eq_none]

/-- C4, witness: a pool with one style never patches. -/
theorem spec_C4_witness :
    patchStringPool [] ⟨⟨0, ⟨1, 28, 40⟩⟩, 1, 1, 256, 36, 36⟩ 0 = none :=
  spec_C4 [] ⟨⟨0, ⟨1, 28, 40⟩⟩, 1, 1, 256, 36, 36⟩ 0 (by decide)

/-- C5: when the parse finds a debuggable attribute whose 4 data bytes are
already `0xFF 0xFF 0xFF 0xFF`, the fast path rewrites exactly those bytes
with the same values, so the output equals the input byte for byte. -/
theorem spec_C5 (fuel : Nat) (inp : List Nat) (pv : ParseView) (k : Nat)
    (a : Attr)
    (hpv : parseManifest fuel inp = some pv)
    (hfind : findDebuggableAttributeAux inp pv.pool pv.rm pv.attrs 0 = some (some k))
    (ha : pv.attrs.get? k = some a)
    (hdata : (inp.drop (a.startOffset + 16)).take 4 = [0xFF, 0xFF, 0xFF, 0xFF]) :
    patchManifest fuel inp = some inp := by
  rw [fastPath_eq fuel inp pv k a hpv hfind ha]
  congr 1
  have := splice_eq inp [0xFF, 0xFF, 0xFF, 0xFF] (a.startOffset + 16)
    (by simpa using hdata)
  simpa using this

/-- C5, witness: the already-debuggable manifest `mFastFF` is reproduced
byte for byte. -/
theorem spec_C5_witness : patchManifest 12 mFastFF = some mFastFF :=
  spec_C5 12 mFastFF pvFastFF 0 ⟨119, 0xFFFFFFFF, 0, 0xFFFFFFFF, 8, 0x12, 0xFFFFFFFF⟩
    (by decide) (by decide) (by decide) (by decide)

/-- C6: the claim says a second run takes the fast path and reproduces the
first run's output.  On the UTF-8 manifest `mUtf8Slow` the first (slow)
run succeeds, but its output cannot be patched again at all: the injected
string bytes carry only one length byte while `decode8` (like Android)
expects a UTF-16 length and a byte length, so reading the injected string
back runs past it and fails the NUL check.  The last two conjuncts isolate
the defect: `decode8` rejects the injected UTF-8 bytes while `decode16`
accepts the UTF-16 ones. -/
theorem spec_C6 :
    patchManifest 12 mUtf8Slow = some mUtf8Out ∧
    patchManifest 12 mUtf8Out = none ∧
    decode8 DEBUGGABLE_STRING_DATA_UTF8 0 = none ∧
    decode16 DEBUGGABLE_STRING_DATA_UTF16 0 = some (debuggableCodes, 24) :=
  ⟨by decide, by decide, by decide, by decide⟩

/-- C8: the attribute search returns an index only when that attribute's
name string is `"debuggable"` and its name index resolves to resource id
`0x0101000F` simultaneously; when every attribute fails the combined test
(and no lookup raises), it returns not-found, so `patchManifest` takes its
slow branch. -/
theorem spec_C8 (s : List Nat) (pool : StrPoolInfo) (rm : ResmapInfo) :
    (∀ (attrs : List Attr) (k : Nat),
      findDebuggableAttributeAux s pool rm attrs 0 = some (some k) →
      ∃ a, attrs.get? k = some a ∧
        readStringE s pool a.nameId = some (some debuggableCodes) ∧
        readResIdE s rm a.nameId = some (some 0x0101000F)) ∧
    (∀ attrs : List Attr,
      (∀ a ∈ attrs, readStringE s pool a.nameId ≠ none) →
      (∀ a ∈ attrs, readResIdE s rm a.nameId ≠ none) →
      (∀ a ∈ attrs, ¬(readStringE s pool a.nameId = some (some debuggableCodes) ∧
        readResIdE s rm a.nameId = some (some 0x0101000F))) →
      findDebuggableAttributeAux s pool rm attrs 0 = some none) := by
  constructor
  · intro attrs k h
    obtain ⟨a, ha, h1, h2, _⟩ := findAux_sound s pool rm attrs 0 k h
    exact ⟨a, by simpa using ha, h1, h2⟩
  · intro attrs h1 h2 h3
    exact findAux_not_found s pool rm attrs h1 h2 h3 0

/-- C8, witness: soundness at the found attribute of `mFastFF`;
completeness at `mS5`, whose only attribute is named `"debuggable"` but has
no resource-map entry, hence not-found. -/
theorem spec_C8_witness :
    (∃ a, [(⟨119, 0xFFFFFFFF, 0, 0xFFFFFFFF, 8, 0x12, 0xFFFFFFFF⟩ : Attr)].get? 0 =
        some a ∧
      readStringE mFastFF pvFastFF.pool a.nameId = some (some debuggableCodes) ∧
      readResIdE mFastFF pvFastFF.rm a.nameId = some (some 0x0101000F)) ∧
    findDebuggableAttributeAux mS5 ⟨⟨8, ⟨1, 28, 112⟩⟩, 3, 0, 256, 40, 0⟩
      ⟨some ⟨120, ⟨0x180, 8, 8⟩⟩, 0⟩ [⟨164, 0xFFFFFFFF, 0, 0xFFFFFFFF, 8, 0x12, 0⟩] 0 =
      some none :=
  ⟨(spec_C8 mFastFF pvFastFF.pool pvFastFF.rm).1
      [⟨119, 0xFFFFFFFF, 0, 0xFFFFFFFF, 8, 0x12, 0xFFFFFFFF⟩] 0 (by decide),
    (spec_C8 mS5 ⟨⟨8, ⟨1, 28, 112⟩⟩, 3, 0, 256, 40, 0⟩
        ⟨some ⟨120, ⟨0x180, 8, 8⟩⟩, 0⟩).2
      [⟨164, 0xFFFFFFFF, 0, 0xFFFFFFFF, 8, 0x12, 0⟩]
      (by decide) (by decide) (by decide)⟩

/-- C10: the whole patch is produced into an in-memory buffer first; the
output path is bound only after `patchManifest` succeeded.  On any failure
(unreadable input or a patching error) the file system is unchanged; on
success exactly the output path is written. -/
theorem spec_C10 (fuel : Nat) (fs : String → Option (List Nat))
    (fnIn fnOut : String) :
    ((fs fnIn).bind (patchManifest fuel) = none →
      patchManifestByFilename fuel fs fnIn fnOut = (none, fs)) ∧
    (∀ inp out, fs fnIn = some inp → patchManifest fuel inp = some out →
      patchManifestByFilename fuel fs fnIn fnOut =
        (some out, fun p => if p = fnOut then some out else fs p)) := by
  constructor
  · intro h
    unfold patchManifestByFilename
    cases hin : fs fnIn with
    | none => rfl
    | some inp =>
      rw [hin] at h
      simp only [Option.some_bind] at h
      simp only [h]
  · intro inp out h1 h2
    unfold patchManifestByFilename
    simp only [h1, h2]

/-- C10, witness: a failing input leaves the file system untouched; the
successful `mFastFF` run writes exactly the output path. -/
theorem spec_C10_witness :
    patchManifestByFilename 12 (fun p => if p = "m" then some [0] else none)
      "m" "out" = (none, fun p => if p = "m" then some [0] else none) ∧
    patchManifestByFilename 12 (fun p => if p = "m" then some mFastFF else none)
      "m" "out" = (some mFastFF,
        fun p => if p = "out" then some mFastFF
          else if p = "m" then some mFastFF else none) :=
  ⟨(spec_C10 12 (fun p => if p = "m" then some [0] else none) "m" "out").1
      (by decide),
    (spec_C10 12 (fun p => if p = "m" then some mFastFF else none) "m" "out").2
      mFastFF mFastFF (by simp) (by decide)⟩

/-- C7, counterexample.  `mFast7` declares its last chunk as 60 bytes while
only 56 remain, so its extent runs 4 bytes past end-of-stream; the claim
says this is a fatal MalformedChunk error.  The scanner nevertheless
records the chunk and ends the scan quietly, and the whole patch succeeds
on this manifest. -/
theorem spec_C7_counterexample :
    readChunks mFast7 12 8 =
      some [⟨8, ⟨1, 28, 63⟩⟩, ⟨71, ⟨0x180, 8, 12⟩⟩, ⟨83, ⟨0x102, 16, 60⟩⟩] ∧
    mFast7.length < 83 + 60 ∧
    patchManifest 12 mFast7 = some mFast7 :=
  ⟨by decide, by decide, by decide⟩

/-- C7, amended.  The chunk scanner validates nothing: (1) every header
read is recorded unconditionally and the scan continues at
`startOffset + chunkSize`, whatever the relation between `chunkSize` and
`headerSize`; (2) a `chunkSize` reaching or passing end-of-stream makes
that chunk the last one and the scan ends normally, without an error;
(3) only the trailing-fragment behaviour of the claim holds: a remnant
shorter than 8 bytes ends the scan with a warning; (4) a `chunkSize` of 0
(in particular, one smaller than `headerSize`) makes the scanner loop
forever rather than raising. -/
theorem spec_C7 :
    (∀ (s : List Nat) (p : Nat) (h : CommonHeader) (fuel : Nat),
      readCommonHeader s p = some h →
      readChunks s (fuel + 1) p =
        (readChunks s fuel (p + h.chunkSize)).map (⟨p, h⟩ :: ·)) ∧
    (∀ (s : List Nat) (p : Nat) (h : CommonHeader) (fuel : Nat),
      readCommonHeader s p = some h → s.length ≤ p + h.chunkSize →
      readChunks s (fuel + 2) p = some [⟨p, h⟩]) ∧
    (∀ (s : List Nat) (p : Nat) (fuel : Nat), s.length - p < 8 →
      readChunks s (fuel + 1) p = some []) ∧
    (∀ (s : List Nat) (p : Nat) (h : CommonHeader),
      readCommonHeader s p = some h → h.chunkSize = 0 →
      ∀ fuel, readChunks s fuel p = none) := by
  have step : ∀ (s : List Nat) (p : Nat) (h : CommonHeader) (fuel : Nat),
      readCommonHeader s p = some h →
      readChunks s (fuel + 1) p =
        (readChunks s fuel (p + h.chunkSize)).map (⟨p, h⟩ :: ·) := by
    intro s p h fuel hh
    simp only [readChunks, hh]
    cases hx : readChunks s fuel (p + h.chunkSize) <;> simp [hx]
  have skip : ∀ (s : List Nat) (p : Nat) (fuel : Nat), s.length - p < 8 →
      readChunks s (fuel + 1) p = some [] := by
    intro s p fuel hp
    have hn : readCommonHeader s p = none := by
      unfold readCommonHeader
      rw [if_pos hp]
    simp only [readChunks, hn]
  refine ⟨step, ?_, skip, ?_⟩
  · intro s p h fuel hh hlen
    rw [step s p h (fuel + 1) hh, skip s (p + h.chunkSize) fuel (by omega)]
    rfl
  · intro s p h hh hcs fuel
    induction fuel with
    | zero => rfl
    | succ m ih =>
      simp only [readChunks, hh, hcs, Nat.add_zero, ih]
      rfl

/-- C7, witness: each part instantiated on the concrete streams. -/
theorem spec_C7_witness :
    readChunks mFast7 4 83 =
      (readChunks mFast7 3 143).map (⟨83, ⟨0x102, 16, 60⟩⟩ :: ·) ∧
    readChunks mFast7 5 83 = some [⟨83, ⟨0x102, 16, 60⟩⟩] ∧
    readChunks mFast7 4 143 = some [] ∧
    readChunks [0, 0, 0, 0, 0, 0, 0, 0] 7 0 = none :=
  ⟨spec_C7.1 mFast7 83 ⟨0x102, 16, 60⟩ 3 (by decide),
    spec_C7.2.1 mFast7 83 ⟨0x102, 16, 60⟩ 3 (by decide) (by decide),
    spec_C7.2.2.1 mFast7 143 3 (by decide),
    spec_C7.2.2.2 [0, 0, 0, 0, 0, 0, 0, 0] 0 ⟨0, 0, 0⟩ (by decide) (by decide) 7⟩

/-- C9, counterexample: the file-header `chunkSize` of the output does NOT
always equal the output length.  `mFast9` declares 143 in its file header
but is 139 bytes long; the fast path splices the body back unchanged, so
the bogus header value survives into the (accepted) output. -/
theorem spec_C9_counterexample :
    patchManifest 12 mFast9 = some mFast9 ∧
    readU32 mFast9 4 = some 143 ∧
    mFast9.length = 139 :=
  ⟨by decide, by decide, by decide⟩

/-- C9: size bookkeeping of the emitters.  (1) the injected resource map
declares `chunkSize` = its own length; (2) `patchResmap`, (3)
`patchStringPool` and (4) `patchApplicationElement` each write at offset 4
of their output a `chunkSize` equal to the bytes they emitted, under the
well-formedness of the fields they read; (5) the generic chunk rewriter
preserves `chunkSize` = bytes written for size-consistent chunks
(`chunkOk`); (6) on the fast path the output length equals the input
length and the file header is copied, so the file-header `chunkSize`
equals the output length exactly when the input header was already
truthful (`readU32 inp 4 = some inp.length`); (7) on the slow path, for
inputs whose chunks tile the stream and whose file header is truthful,
the output grows by (12 or 24) + 28 bytes and the rewritten file-header
`chunkSize` equals the total output length.  The claim as stated is
refuted by the counterexample: nothing validates the input file header,
so the fast path propagates a wrong total. -/
theorem spec_C9 :
    (readU32 injectResmapBytes 4 = some injectResmapBytes.length) ∧
    (∀ (s : List Nat) (rm : ResmapInfo) (ci : ChunkInfo) (out : List Nat),
      rm.chunk = some ci → 8 ≤ ci.header.chunkSize →
      ci.startOffset + ci.header.chunkSize ≤ s.length →
      patchResmap s rm = some out →
      readU32 out 4 = some out.length) ∧
    (∀ (s : List Nat) (p : StrPoolInfo) (d : Int) (out : List Nat) (x : Nat),
      p.chunk.header.headerSize = 28 → 0 ≤ d → d < (p.stringCount : Int) →
      readU32 s (p.chunk.startOffset + 28 + 4 * d.toNat) = some x →
      28 + 4 * p.stringCount ≤ p.stringsStart →
      p.stringsStart + x ≤ p.chunk.header.chunkSize →
      p.chunk.startOffset + p.chunk.header.chunkSize ≤ s.length →
      patchStringPool s p d = some out →
      readU32 out 4 = some out.length) ∧
    (∀ (s : List Nat) (ci : ChunkInfo) (nsId : Nat) (d : Int) (rm : ResmapInfo)
        (out : List Nat) (attrStart cnt : Nat),
      readU16 s (ci.startOffset + 8 + 8 + 4 + 4) = some attrStart →
      readU16 s (ci.startOffset + 8 + 8 + 4 + 4 + 4) = some cnt →
      36 ≤ ci.header.headerSize + attrStart →
      ci.header.headerSize + attrStart + 20 * cnt ≤ ci.header.chunkSize →
      ci.startOffset + ci.header.chunkSize ≤ s.length →
      patchApplicationElement s ci nsId d rm = some out →
      readU32 out 4 = some out.length) ∧
    (∀ (s : List Nat) (ci : ChunkInfo) (cmp : Int) (out : List Nat),
      chunkOk s ci → readCommonHeader s ci.startOffset = some ci.header →
      patchChunk s ci cmp = some out →
      out.length = ci.header.chunkSize ∧ readU32 out 4 = some out.length) ∧
    (∀ (fuel : Nat) (inp : List Nat) (pv : ParseView) (k : Nat) (a : Attr)
        (out : List Nat),
      parseManifest fuel inp = some pv →
      findDebuggableAttributeAux inp pv.pool pv.rm pv.attrs 0 = some (some k) →
      pv.attrs.get? k = some a → a.startOffset + 20 ≤ inp.length →
      readU32 inp 4 = some inp.length →
      patchManifest fuel inp = some out →
      out.length = inp.length ∧ readU32 out 4 = some out.length) ∧
    (∀ (fuel : Nat) (inp : List Nat) (pv : ParseView) (ri : Nat)
        (rmc appc : ChunkInfo) (x aAttrStart aCnt : Nat) (out : List Nat),
      parseManifest fuel inp = some pv →
      findDebuggableAttributeAux inp pv.pool pv.rm pv.attrs 0 = some none →
      pv.rmIdx = some ri →
      pv.chunks.get? pv.spIdx = some pv.pool.chunk →
      pv.chunks.get? ri = some rmc →
      pv.chunks.get? pv.appIdx = some appc →
      pv.rm.chunk = some rmc →
      pv.spIdx ≠ ri → pv.spIdx ≠ pv.appIdx → ri ≠ pv.appIdx →
      pv.pool.chunk.header.headerSize = 28 →
      0 ≤ pv.rm.len → pv.rm.len < (pv.pool.stringCount : Int) →
      readU32 inp (pv.pool.chunk.startOffset + 28 + 4 * pv.rm.len.toNat) = some x →
      28 + 4 * pv.pool.stringCount ≤ pv.pool.stringsStart →
      pv.pool.stringsStart + x ≤ pv.pool.chunk.header.chunkSize →
      pv.pool.chunk.startOffset + pv.pool.chunk.header.chunkSize ≤ inp.length →
      8 ≤ rmc.header.chunkSize →
      rmc.startOffset + rmc.header.chunkSize ≤ inp.length →
      readU16 inp (appc.startOffset + 8 + 8 + 4 + 4) = some aAttrStart →
      readU16 inp (appc.startOffset + 8 + 8 + 4 + 4 + 4) = some aCnt →
      36 ≤ appc.header.headerSize + aAttrStart →
      appc.header.headerSize + aAttrStart + 20 * aCnt ≤ appc.header.chunkSize →
      appc.startOffset + appc.header.chunkSize ≤ inp.length →
      (∀ j ci, pv.chunks.get? j = some ci → j ≠ pv.spIdx → j ≠ ri →
        j ≠ pv.appIdx → chunkOk inp ci) →
      ((pv.chunks.map (fun c => c.header.chunkSize)).sum) + 8 = inp.length →
      pv.fh.chunkSize = inp.length →
      patchManifest fuel inp = some out →
      out.length = inp.length + ((if pv.pool.isUtf8 then 12 else 24) + 28) ∧
      readU32 out 4 = some out.length) := by
  refine ⟨by decide, ?_, ?_, ?_, ?_, ?_, ?_⟩
  · intro s rm ci out h1 h2 h3 h4
    obtain ⟨hl, hr⟩ := patchResmap_spec s rm ci out h1 h2 h3 h4
    rw [hr, hl]
  · intro s p d out x h1 h2 h3 h4 h5 h6 h7 h8
    obtain ⟨hl, hr⟩ := patchStringPool_spec s p d out x h1 h2 h3 h4 h5 h6 h7 h8
    rw [hr, hl]
  · intro s ci nsId d rm out attrStart cnt h1 h2 h3 h4 h5 h6
    obtain ⟨hl, hr⟩ := patchApplicationElement_spec s ci nsId d rm out attrStart cnt
      h1 h2 h3 h4 h5 h6
    rw [hr, hl]
  · intro s ci cmp out h1 h2 h3
    obtain ⟨hl, hr⟩ := patchChunk_ok s ci cmp out h1 h3
    exact ⟨hl, by rw [hr h2, hl]⟩
  · intro fuel inp pv k a out h1 h2 h3 h4 h5 h6
    exact fastPath_total fuel inp pv k a out h1 h2 h3 h4 h5 h6
  · intro fuel inp pv ri rmc appc x aAttrStart aCnt out h1 h2 h3 h4 h5 h6 h7 h8
      h9 h10 h11 h12 h13 h14 h15 h16 h17 h18 h19 h20 h21 h22 h23 h24 h25 h26
      h27 h28
    exact slowPath_total fuel inp pv ri rmc appc x aAttrStart aCnt out h1 h2 h3
      h4 h5 h6 h7 h8 h9 h10 h11 h12 h13 h14 h15 h16 h17 h18 h19 h20 h21 h22
      h23 h24 h25 h26 h27 h28

/-- C9, witness: each conditional conjunct instantiated concretely,
conjuncts (2), (5) and (6) on `mFastFF`, conjuncts (3), (4) and (7) on
`mUtf8Slow`. -/
theorem spec_C9_witness :
    (readU32 ((patchResmap mFastFF ⟨some ⟨71, ⟨0x180, 8, 12⟩⟩, 1⟩).getD []) 4 =
      some ((patchResmap mFastFF ⟨some ⟨71, ⟨0x180, 8, 12⟩⟩, 1⟩).getD []).length) ∧
    (readU32 ((patchStringPool mUtf8Slow pvUtf8Slow.pool 0).getD []) 4 =
      some ((patchStringPool mUtf8Slow pvUtf8Slow.pool 0).getD []).length) ∧
    (readU32 ((patchApplicationElement mUtf8Slow ⟨111, ⟨0x102, 16, 36⟩⟩ 2 0
        pvUtf8Slow.rm).getD []) 4 =
      some ((patchApplicationElement mUtf8Slow ⟨111, ⟨0x102, 16, 36⟩⟩ 2 0
        pvUtf8Slow.rm).getD []).length) ∧
    (((patchChunk mFastFF ⟨71, ⟨0x180, 8, 12⟩⟩ 0).getD []).length = 12 ∧
      readU32 ((patchChunk mFastFF ⟨71, ⟨0x180, 8, 12⟩⟩ 0).getD []) 4 =
        some ((patchChunk mFastFF ⟨71, ⟨0x180, 8, 12⟩⟩ 0).getD []).length) ∧
    (mFastFF.length = mFastFF.length ∧ readU32 mFastFF 4 = some mFastFF.length) ∧
    (mUtf8Out.length = mUtf8Slow.length + 40 ∧
      readU32 mUtf8Out 4 = some mUtf8Out.length) := by
  refine ⟨?_, ?_, ?_, ?_, ?_, ?_⟩
  · exact spec_C9.2.1 mFastFF ⟨some ⟨71, ⟨0x180, 8, 12⟩⟩, 1⟩ ⟨71, ⟨0x180, 8, 12⟩⟩ _
      (by decide) (by decide) (by decide) (by decide)
  · exact spec_C9.2.2.1 mUtf8Slow pvUtf8Slow.pool 0 _ 0
      (by decide) (by decide) (by decide) (by decide) (by decide) (by decide)
      (by decide) (by decide)
  · exact spec_C9.2.2.2.1 mUtf8Slow ⟨111, ⟨0x102, 16, 36⟩⟩ 2 0 pvUtf8Slow.rm _ 20 0
      (by decide) (by decide) (by decide) (by decide) (by decide) (by decide)
  · exact spec_C9.2.2.2.2.1 mFastFF ⟨71, ⟨0x180, 8, 12⟩⟩ 0 _
      (by refine ⟨by decide, by decide, ?_⟩; left; right; decide)
      (by decide) (by decide)
  · exact spec_C9.2.2.2.2.2.1 12 mFastFF pvFastFF 0
      ⟨119, 0xFFFFFFFF, 0, 0xFFFFFFFF, 8, 0x12, 0xFFFFFFFF⟩ mFastFF
      (by decide) (by decide) (by decide) (by decide) (by decide) (by decide)
  · exact spec_C9.2.2.2.2.2.2 12 mUtf8Slow pvUtf8Slow 1 ⟨103, ⟨0x180, 8, 8⟩⟩
      ⟨111, ⟨0x102, 16, 36⟩⟩ 0 20 0 mUtf8Out
      (by decide) (by decide) (by decide) (by decide) (by decide) (by decide)
      (by decide) (by decide) (by decide) (by decide) (by decide) (by decide)
      (by decide) (by decide) (by decide) (by decide) (by decide) (by decide)
      (by decide) (by decide) (by decide) (by decide) (by decide) (by decide)
      (by
        intro j ci hget hj1 hj2 hj3
        have hlt := (List.get?_eq_some.1 hget).1
        dsimp only [pvUtf8Slow] at hlt hj1 hj2 hj3
        simp only [List.length_cons, List.length_nil] at hlt
        exact absurd hlt (by omega))
      (by decide) (by decide) (by decide)

end Claims

end MakeDebuggable
